import Mathlib

/-!
# qBittorrent application orchestrator

A shallow embedding of `src/app/application.cpp`: the command routing
(`Application::processMessage`, `Application::sendParams`,
`Application::processParams` and the queue drain at the end of
`Application::exec`), the external program invoker
(`Application::runExternalProgram`), the shutdown arbiter
(`Application::allTorrentsFinished`), the startup and the teardown
(`Application::exec`, `Application::cleanup`) and the size setting of the
file logger; and of `PeerInfo::calcRelevance` of
`src/base/bittorrent/peerinfo.cpp`.  Theorems about them follow the
definitions.

Strings are lists of characters.  The Qt primitives the code calls
(`trimmed`, `startsWith`, `mid`, `toInt`, `split`, `join`, `number`,
`replace`, `QProcess::splitCommand`, the operators of `QBitArray`) are
library functions; they are modelled here after their documented behaviour.
Effects on collaborators are recorded as lists of events in the order in
which the code performs them.
-/

namespace QBt

/-! ## Qt string primitives -/

/-- A `QString`, as the list of its characters. -/
abbrev QString := List Char

/-- A `QStringList`. -/
abbrev QStringList := List QString

/-- The predicate `QChar::isSpace`: the ASCII white space characters
(space, tab, line feed, vertical tab, form feed, carriage return), the next
line and no-break space characters, and the Unicode separator categories
Zs, Zl and Zp. -/
def isSpace (c : Char) : Bool :=
  let u := c.toNat
  u == 0x20 || (0x09 ≤ u && u ≤ 0x0d) || u == 0x85 || u == 0xa0 || u == 0x1680
    || (0x2000 ≤ u && u ≤ 0x200a) || u == 0x2028 || u == 0x2029 || u == 0x202f
    || u == 0x205f || u == 0x3000

/-- Drop the white space at the end of a string. -/
def trimRight (s : QString) : QString :=
  (s.reverse.dropWhile isSpace).reverse

/-- The function `QString::trimmed`: white space removed from both ends. -/
def trimmed (s : QString) : QString :=
  trimRight (s.dropWhile isSpace)

/-- The function `QString::startsWith` (case sensitive). -/
def startsWith (s pre : QString) : Bool :=
  pre.isPrefixOf s

/-- The function `QString::mid(position)`: the string from `position` to the end. -/
def mid (s : QString) (position : Nat) : QString :=
  s.drop position

/-- Value of an ASCII decimal digit. -/
def digitValue (c : Char) : Option Nat :=
  if 48 ≤ c.toNat ∧ c.toNat ≤ 57 then some (c.toNat - 48) else none

/-- Read a run of decimal digits, most significant first, on top of `acc`;
`none` as soon as a character is not a digit. -/
def readDigits : QString → Nat → Option Nat
  | [], acc => some acc
  | c :: cs, acc =>
    match digitValue c with
    | some d => readDigits cs (10 * acc + d)
    | none => none

/-- The unsigned part of a number: at least one digit, digits only. -/
def readUnsigned (s : QString) : Option Nat :=
  match s with
  | [] => none
  | _ :: _ => readDigits s 0

/-- Base 10 integer conversion in the C locale, before any range check:
surrounding white space is skipped, then an optional sign and a non-empty run
of digits are read.  `none` is a conversion failure. -/
def parseInteger (s : QString) : Option Int :=
  match trimmed s with
  | [] => none
  | c :: ds =>
    if c = '-' then (readUnsigned ds).map (fun n => - (n : Int))
    else if c = '+' then (readUnsigned ds).map (fun n => (n : Int))
    else (readUnsigned (c :: ds)).map (fun n => (n : Int))

/-- Smallest value of a 32 bit `int`. -/
def INT_MIN : Int := -2147483648

/-- Largest value of a 32 bit `int`. -/
def INT_MAX : Int := 2147483647

/-- The function `QStringView::toInt()` (base 10): the value of the string, or
`0` when the conversion fails or the value does not fit a 32 bit `int`. -/
def toInt (s : QString) : Int :=
  match parseInteger s with
  | some n => if INT_MIN ≤ n ∧ n ≤ INT_MAX then n else 0
  | none => 0

/-- The function `QString::split(sep, Qt::SkipEmptyParts)`: the parts between
occurrences of `sep`, the empty ones left out. -/
def split (s : QString) (sep : Char) : QStringList :=
  (s.splitOn sep).filter (fun part => !part.isEmpty)

/-- The function `QStringList::join(sep)`. -/
def join (l : QStringList) (sep : Char) : QString :=
  [sep].intercalate l

/-! ## Data model -/

/-- The fields of `BitTorrent::AddTorrentParams` that `processParams` writes.
A default constructed value has empty strings, an unset `addPaused` and
cleared flags. -/
structure AddTorrentParams where
  savePath : QString := []
  addPaused : Option Bool := none
  skipChecking : Bool := false
  category : QString := []
  sequential : Bool := false
  firstLastPiecePriority : Bool := false
deriving DecidableEq, Repr

/-- The two locals of `processParams` that live across loop iterations:
`torrentParams` and `skipTorrentDialog`. -/
structure Accumulator where
  torrentParams : AddTorrentParams := {}
  skipTorrentDialog : Option Bool := none
deriving DecidableEq, Repr

/-- What `processParams` asks of its collaborators. -/
inductive Dispatch where
  /-- The call `m_window->activate()`. -/
  | activate
  /-- The call `AddNewTorrentDialog::show(param, torrentParams, m_window)`. -/
  | showDialog (source : QString) (torrentParams : AddTorrentParams)
  /-- The call `BitTorrent::Session::instance()->addTorrent(param, torrentParams)`. -/
  | addTorrent (source : QString) (torrentParams : AddTorrentParams)
deriving DecidableEq, Repr

/-- The source and the options of a dispatch, when it is a request to add a
torrent. -/
def Dispatch.request : Dispatch → Option (QString × AddTorrentParams)
  | Dispatch.activate => none
  | Dispatch.showDialog source torrentParams => some (source, torrentParams)
  | Dispatch.addTorrent source torrentParams => some (source, torrentParams)

/-- What the routing code reads from its surroundings: whether this is a GUI
build (`DISABLE_GUI` not defined) and the value of
`AddNewTorrentDialog::isEnabled()`. -/
structure Env where
  gui : Bool
  dialogEnabled : Bool
deriving DecidableEq, Repr

/-- The constant `PARAMS_SEPARATOR`. -/
def PARAMS_SEPARATOR : Char := '|'

/-- The members of `Application` that the routing code reads and writes.
The constructor sets `m_running` to `false` and leaves `m_paramsQueue`
empty.  The queue is a `QStringList`: a flat list of entries. -/
structure Application where
  m_running : Bool := false
  m_paramsQueue : QStringList := []
deriving DecidableEq, Repr

/-! ## `Application::processParams` -/

/-- The option directives of the loop body of `processParams`, tested in the
order of the source on the trimmed entry.  `some acc'` is an iteration that
ends in `continue` with the updated locals; `none` means that no test
matched and control falls through to the dispatch. -/
def applyDirective (acc : Accumulator) (param : QString) : Option Accumulator :=
  if startsWith param "@savePath=".toList then
    some { acc with torrentParams := { acc.torrentParams with savePath := mid param 10 } }
  else if startsWith param "@addPaused=".toList then
    some { acc with torrentParams :=
      { acc.torrentParams with addPaused := some (toInt (mid param 11) != 0) } }
  else if param = "@skipChecking".toList then
    some { acc with torrentParams := { acc.torrentParams with skipChecking := true } }
  else if startsWith param "@category=".toList then
    some { acc with torrentParams := { acc.torrentParams with category := mid param 10 } }
  else if param = "@sequential".toList then
    some { acc with torrentParams := { acc.torrentParams with sequential := true } }
  else if param = "@firstLastPiecePriority".toList then
    some { acc with torrentParams :=
      { acc.torrentParams with firstLastPiecePriority := true } }
  else if startsWith param "@skipDialog=".toList then
    some { acc with skipTorrentDialog := some (toInt (mid param 12) != 0) }
  else
    none

/-- The local `showDialogForThisTorrent`:
`!skipTorrentDialog.value_or(!AddNewTorrentDialog::isEnabled())`. -/
def showDialogForThisTorrent (env : Env) (acc : Accumulator) : Bool :=
  !(acc.skipTorrentDialog.getD (!env.dialogEnabled))

/-- The end of the loop body: the entry is handed to the add dialog (GUI
build only) or to the session. -/
def dispatch (env : Env) (acc : Accumulator) (param : QString) : Dispatch :=
  if env.gui && showDialogForThisTorrent env acc then
    Dispatch.showDialog param acc.torrentParams
  else
    Dispatch.addTorrent param acc.torrentParams

/-- The `for` loop of `processParams`, started with the locals `acc`. -/
def processLoop (env : Env) : Accumulator → QStringList → List Dispatch
  | _, [] => []
  | acc, raw :: rest =>
    let param := trimmed raw
    match applyDirective acc param with
    | some acc' => processLoop env acc' rest
    | none => dispatch env acc param :: processLoop env acc rest

/-- The function `Application::processParams`. -/
def processParams (env : Env) (params : QStringList) : List Dispatch :=
  if env.gui && params.isEmpty then
    [Dispatch.activate]
  else
    processLoop env {} params

/-! ## `Application::sendParams`, `Application::processMessage` and the drain of `Application::exec` -/

/-- The function `Application::sendParams`: the message handed to the
instance manager. -/
def sendParams (params : QStringList) : QString :=
  join params PARAMS_SEPARATOR

/-- The function `Application::processMessage`: the new state and the
dispatches made. -/
def processMessage (env : Env) (app : Application) (message : QString) :
    Application × List Dispatch :=
  let params := split message PARAMS_SEPARATOR
  if app.m_running then
    (app, processParams env params)
  else
    ({ app with m_paramsQueue := app.m_paramsQueue ++ params }, [])

/-- The end of `Application::exec`, reached when every subsystem has started:
`m_running = true`, then the queue, with the parameters of `exec` put in
front, is processed and cleared if it is not empty. -/
def execDrain (env : Env) (app : Application) (params : QStringList) :
    Application × List Dispatch :=
  let queue := params ++ app.m_paramsQueue
  if !queue.isEmpty then
    ({ app with m_running := true, m_paramsQueue := [] }, processParams env queue)
  else
    ({ app with m_running := true, m_paramsQueue := queue }, [])

/-- Whether a trimmed entry is one of the recognised option directives. -/
def isDirective (param : QString) : Bool :=
  startsWith param "@savePath=".toList || startsWith param "@addPaused=".toList
    || param == "@skipChecking".toList || startsWith param "@category=".toList
    || param == "@sequential".toList || param == "@firstLastPiecePriority".toList
    || startsWith param "@skipDialog=".toList

/-- One directive applied to the accumulator; an entry that is not a directive
leaves it as it is. -/
def applyEntry (acc : Accumulator) (raw : QString) : Accumulator :=
  (applyDirective acc (trimmed raw)).getD acc

/-- The accumulator after the directives among `entries` have been applied
to `acc`, in order. -/
def accumulate (acc : Accumulator) (entries : QStringList) : Accumulator :=
  entries.foldl applyEntry acc

/-- The options in force after the entries `pre` of a batch: all directives
of `pre` applied in order to an unset accumulator. -/
def optionsAfter (pre : QStringList) : Accumulator :=
  accumulate {} pre

/-- The value carried by the last entry of `pre` that starts with `key`. -/
def lastValue (key : QString) (pre : QStringList) : Option QString :=
  ((pre.map trimmed).reverse.find? (fun p => startsWith p key)).map
    (fun p => mid p key.length)

/-- Whether the flag directive `flag` occurs among the entries `pre`. -/
def hasFlag (flag : QString) (pre : QStringList) : Bool :=
  (pre.map trimmed).contains flag

/-- The value of the last `@skipDialog=` directive among the entries `pre`,
if there is one. -/
def lastSkipDialog (pre : QStringList) : Option Bool :=
  (lastValue "@skipDialog=".toList pre).map (fun v => toInt v != 0)

/-- The rule the code follows to choose the add dialog: without an override
the preference decides; an override decides alone, and the dialog is shown
when it is false. -/
def dialogShown (enabled : Bool) (override : Option Bool) : Bool :=
  match override with
  | none => enabled
  | some skip => !skip

/-- The accumulator after an `@addPaused=` directive of value `paused`. -/
def setAddPaused (acc : Accumulator) (paused : Bool) : Accumulator :=
  { acc with torrentParams := { acc.torrentParams with addPaused := some paused } }

/-- The accumulator after a `@skipDialog=` directive of value `skip`. -/
def setSkipDialog (acc : Accumulator) (skip : Bool) : Accumulator :=
  { acc with skipTorrentDialog := some skip }

/-- Whether a character is one of the ten ASCII decimal digits. -/
def isDigit (c : Char) : Bool :=
  48 ≤ c.toNat && c.toNat ≤ 57

/-- A string without its leading sign, if it has one. -/
def unsignedPart (t : QString) : QString :=
  match t with
  | [] => []
  | c :: ds => if c = '-' ∨ c = '+' then ds else c :: ds

/-- Whether a string is a decimal integer: an optional sign followed by one
or more decimal digits, white space being allowed before and after. -/
def isDecimalInteger (s : QString) : Bool :=
  !(unsignedPart (trimmed s)).isEmpty && (unsignedPart (trimmed s)).all isDigit

/-- The integer that a decimal integer denotes: its digits read in base ten,
negated under a minus sign. -/
def decimalValue (s : QString) : Int :=
  let magnitude : Nat :=
    Nat.ofDigits 10 ((unsignedPart (trimmed s)).reverse.map (fun c => c.toNat - 48))
  if (trimmed s).head? = some '-' then - (magnitude : Int) else (magnitude : Int)

/-- The outcome of the seven directive tests on an entry: at most one holds. -/
inductive DirectiveKind (p : QString) : Prop where
  | savePath (h1 : startsWith p "@savePath=".toList = true)
      (h2 : startsWith p "@addPaused=".toList = false) (h3 : p ≠ "@skipChecking".toList)
      (h4 : startsWith p "@category=".toList = false) (h5 : p ≠ "@sequential".toList)
      (h6 : p ≠ "@firstLastPiecePriority".toList)
      (h7 : startsWith p "@skipDialog=".toList = false)
  | addPaused (h1 : startsWith p "@savePath=".toList = false)
      (h2 : startsWith p "@addPaused=".toList = true) (h3 : p ≠ "@skipChecking".toList)
      (h4 : startsWith p "@category=".toList = false) (h5 : p ≠ "@sequential".toList)
      (h6 : p ≠ "@firstLastPiecePriority".toList)
      (h7 : startsWith p "@skipDialog=".toList = false)
  | skipChecking (h1 : startsWith p "@savePath=".toList = false)
      (h2 : startsWith p "@addPaused=".toList = false) (h3 : p = "@skipChecking".toList)
      (h4 : startsWith p "@category=".toList = false) (h5 : p ≠ "@sequential".toList)
      (h6 : p ≠ "@firstLastPiecePriority".toList)
      (h7 : startsWith p "@skipDialog=".toList = false)
  | category (h1 : startsWith p "@savePath=".toList = false)
      (h2 : startsWith p "@addPaused=".toList = false) (h3 : p ≠ "@skipChecking".toList)
      (h4 : startsWith p "@category=".toList = true) (h5 : p ≠ "@sequential".toList)
      (h6 : p ≠ "@firstLastPiecePriority".toList)
      (h7 : startsWith p "@skipDialog=".toList = false)
  | sequential (h1 : startsWith p "@savePath=".toList = false)
      (h2 : startsWith p "@addPaused=".toList = false) (h3 : p ≠ "@skipChecking".toList)
      (h4 : startsWith p "@category=".toList = false) (h5 : p = "@sequential".toList)
      (h6 : p ≠ "@firstLastPiecePriority".toList)
      (h7 : startsWith p "@skipDialog=".toList = false)
  | firstLastPiecePriority (h1 : startsWith p "@savePath=".toList = false)
      (h2 : startsWith p "@addPaused=".toList = false) (h3 : p ≠ "@skipChecking".toList)
      (h4 : startsWith p "@category=".toList = false) (h5 : p ≠ "@sequential".toList)
      (h6 : p = "@firstLastPiecePriority".toList)
      (h7 : startsWith p "@skipDialog=".toList = false)
  | skipDialog (h1 : startsWith p "@savePath=".toList = false)
      (h2 : startsWith p "@addPaused=".toList = false) (h3 : p ≠ "@skipChecking".toList)
      (h4 : startsWith p "@category=".toList = false) (h5 : p ≠ "@sequential".toList)
      (h6 : p ≠ "@firstLastPiecePriority".toList)
      (h7 : startsWith p "@skipDialog=".toList = true)
  | source (h1 : startsWith p "@savePath=".toList = false)
      (h2 : startsWith p "@addPaused=".toList = false) (h3 : p ≠ "@skipChecking".toList)
      (h4 : startsWith p "@category=".toList = false) (h5 : p ≠ "@sequential".toList)
      (h6 : p ≠ "@firstLastPiecePriority".toList)
      (h7 : startsWith p "@skipDialog=".toList = false)

/-! ## `Application::runExternalProgram` -/

/-- The attributes of a `BitTorrent::Torrent` that `runExternalProgram` reads.
An info hash is `some` text when it is valid. -/
structure Torrent where
  filesCount : Int := 0
  savePath : QString := []
  contentPath : QString := []
  tags : QStringList := []
  infoHashV1 : Option QString := none
  infoHashV2 : Option QString := none
  id : QString := []
  category : QString := []
  name : QString := []
  rootPath : QString := []
  currentTracker : QString := []
  totalSize : Int := 0

/-- The platform of the build: whether `Q_OS_WIN` is defined, and the function
`Utils::Fs::toNativePath`. -/
structure Host where
  windows : Bool
  toNativePath : QString → QString

/-- The function `QString::number` on an integer: its decimal text. -/
def number (n : Int) : QString :=
  (toString n).toList

/-- The lambda `chopPathSep`: the string without its last character when that
is a backslash. -/
def chopPathSep (str : QString) : QString :=
  if str.getLast? = some (Char.ofNat 92) then str.take (str.length - 1) else str

/-- The text of a path attribute: in native form, and on Windows without a
trailing separator. -/
def nativePathText (host : Host) (path : QString) : QString :=
  if host.windows then chopPathSep (host.toNativePath path) else host.toNativePath path

/-- The `switch` over the specifier of `runExternalProgram`: the text that
replaces the directive, `none` in the `default` case. -/
def specifierText (host : Host) (torrent : Torrent) (specifier : Char) : Option QString :=
  if specifier = 'C' then some (number torrent.filesCount)
  else if specifier = 'D' then some (nativePathText host torrent.savePath)
  else if specifier = 'F' then some (nativePathText host torrent.contentPath)
  else if specifier = 'G' then some (join torrent.tags ',')
  else if specifier = 'I' then some (torrent.infoHashV1.getD "-".toList)
  else if specifier = 'J' then some (torrent.infoHashV2.getD "-".toList)
  else if specifier = 'K' then some torrent.id
  else if specifier = 'L' then some torrent.category
  else if specifier = 'N' then some torrent.name
  else if specifier = 'R' then some (nativePathText host torrent.rootPath)
  else if specifier = 'T' then some torrent.currentTracker
  else if specifier = 'Z' then some (number torrent.totalSize)
  else none

/-- The function `QString::replace(position, n, after)`. -/
def replace (program : QString) (position n : Nat) (after : QString) : QString :=
  program.take position ++ after ++ program.drop (position + n)

/-- One iteration of the scan loop at index `i`.  The result is the program
afterwards and whether a percent sign was found at `i`, in which case the
body ends with the extra `--i`; it is `none` when `program[i]` or
`program[i + 1]` is read outside the string. -/
def iteration (text : Char → Option QString) (program : QString) (i : Nat) :
    Option (QString × Bool) :=
  match program[i]? with
  | none => none
  | some c =>
    if c ≠ '%' then some (program, false)
    else
      match program[i + 1]? with
      | none => none
      | some specifier =>
        match text specifier with
        | some after => some (replace program i 2 after, true)
        | none => some (program, true)

/-- The scan loop `for (int i = ...; i >= 0; --i)` entered with `i + 1` equal
to the second argument: at `0` the loop is over. -/
def scanFrom (text : Char → Option QString) : QString → Nat → Option QString
  | program, 0 => some program
  | program, 1 => (iteration text program 0).map Prod.fst
  | program, n + 2 =>
    match iteration text program (n + 1) with
    | none => none
    | some (program1, true) => scanFrom text program1 n
    | some (program1, false) => scanFrom text program1 (n + 1)

/-- The command that `runExternalProgram` renders from the preference
`autoRunProgram`: the trimmed text scanned from `i = length - 2` down. -/
def renderProgram (host : Host) (torrent : Torrent) (autoRunProgram : QString) :
    Option QString :=
  scanFrom (specifierText host torrent) (trimmed autoRunProgram)
    ((trimmed autoRunProgram).length - 1)

/-- The locals of the loop of `QProcess::splitCommand`. -/
structure SplitCommandState where
  args : QStringList := []
  tmp : QString := []
  quoteCount : Nat := 0
  inQuote : Bool := false

/-- The double quote character. -/
def doubleQuote : Char := Char.ofNat 34

/-- The body of the loop of `QProcess::splitCommand` for one character. -/
def splitCommandStep (st : SplitCommandState) (c : Char) : SplitCommandState :=
  if c = doubleQuote then
    if st.quoteCount + 1 = 3 then
      { st with quoteCount := 0, tmp := st.tmp ++ [c] }
    else
      { st with quoteCount := st.quoteCount + 1 }
  else
    let st1 : SplitCommandState :=
      if st.quoteCount ≠ 0 then
        { st with inQuote := if st.quoteCount = 1 then !st.inQuote else st.inQuote,
                  quoteCount := 0 }
      else st
    if !st1.inQuote && isSpace c then
      if !st1.tmp.isEmpty then { st1 with args := st1.args ++ [st1.tmp], tmp := [] }
      else st1
    else
      { st1 with tmp := st1.tmp ++ [c] }

/-- The function `QProcess::splitCommand`: the command cut at white space
into arguments, double quotes protecting white space. -/
def splitCommand (command : QString) : QStringList :=
  let st := command.foldl splitCommandStep {}
  if !st.tmp.isEmpty then st.args ++ [st.tmp] else st.args

/-- A call made to the process interface. -/
inductive ProcessCall where
  /-- The call `QProcess::startDetached(command, args)`. -/
  | startDetached (command : QString) (arguments : QStringList)
deriving DecidableEq, Repr

/-- The end of `runExternalProgram` where `Q_OS_WIN` is not defined: the
rendered program is split, and launched unless the split is empty. -/
def launch (program : QString) : List ProcessCall :=
  match splitCommand program with
  | [] => []
  | command :: args => [ProcessCall.startDetached command args]

/-- The function `Application::runExternalProgram` of a build for a system
other than Windows: the process calls it makes, `none` if the scan reads
outside the string. -/
def runExternalProgram (host : Host) (torrent : Torrent) (autoRunProgram : QString) :
    Option (List ProcessCall) :=
  (renderProgram host torrent autoRunProgram).map launch

/-- The template with every directive replaced at once: read from the left, a
percent sign followed by a specifier that has a text gives that text, and
every other character stays. -/
def substitute (text : Char → Option QString) : QString → QString
  | [] => []
  | [a] => [a]
  | a :: b :: rest =>
    if a = '%' then
      match text b with
      | some t => t ++ substitute text rest
      | none => a :: substitute text (b :: rest)
    else a :: substitute text (b :: rest)

/-- The character `a` in front of `suf` does not start a directive. -/
def Sealed (text : Char → Option QString) (a : Char) (suf : QString) : Prop :=
  substitute text (a :: suf) = a :: substitute text suf

/-- Whether a character is one of the twelve specifier letters. -/
def isSpecifier (c : Char) : Bool :=
  c == 'C' || c == 'D' || c == 'F' || c == 'G' || c == 'I' || c == 'J' || c == 'K'
    || c == 'L' || c == 'N' || c == 'R' || c == 'T' || c == 'Z'

/-- The table of the template specifiers, as the specification lists them:
`%C` file count, `%D` save path, `%F` content path, `%G` tags joined by
commas, `%I` primary info hash or `-`, `%J` secondary info hash or `-`, `%K`
identifier, `%L` category, `%N` name, `%R` root path, `%T` current tracker,
`%Z` total size in decimal.  Paths are in native form, without a trailing
backslash on Windows. -/
def attributeTable (host : Host) (torrent : Torrent) : List (Char × QString) :=
  [('C', number torrent.filesCount),
   ('D', if host.windows then chopPathSep (host.toNativePath torrent.savePath)
         else host.toNativePath torrent.savePath),
   ('F', if host.windows then chopPathSep (host.toNativePath torrent.contentPath)
         else host.toNativePath torrent.contentPath),
   ('G', join torrent.tags ','),
   ('I', torrent.infoHashV1.getD "-".toList),
   ('J', torrent.infoHashV2.getD "-".toList),
   ('K', torrent.id),
   ('L', torrent.category),
   ('N', torrent.name),
   ('R', if host.windows then chopPathSep (host.toNativePath torrent.rootPath)
         else host.toNativePath torrent.rootPath),
   ('T', torrent.currentTracker),
   ('Z', number torrent.totalSize)]

/-- The text of the attribute that a specifier letter stands for in the table
of the specification, `none` for any other character. -/
def attributeText (host : Host) (torrent : Torrent) (c : Char) : Option QString :=
  (attributeTable host torrent).lookup c

/-- A host other than Windows whose paths are native as they are. -/
def plainHost : Host :=
  { windows := false, toNativePath := fun path => path }

/-! ## `Application::allTorrentsFinished` -/

/-- The enumeration `ShutdownDialogAction`. -/
inductive ShutdownDialogAction where
  | Exit
  | Shutdown
  | Suspend
  | Hibernate
deriving DecidableEq, Repr

/-- The preferences that `allTorrentsFinished` reads and writes, under the
names of their getters. -/
structure Preferences where
  shutdownqBTWhenDownloadsComplete : Bool := false
  shutdownWhenDownloadsComplete : Bool := false
  suspendWhenDownloadsComplete : Bool := false
  hibernateWhenDownloadsComplete : Bool := false
  dontConfirmAutoExit : Bool := false
deriving DecidableEq, Repr

/-- What `allTorrentsFinished` can change: the preferences and the member
`m_shutdownAct`, which the constructor sets to `Exit`. -/
structure ShutdownState where
  pref : Preferences := {}
  m_shutdownAct : ShutdownDialogAction := ShutdownDialogAction.Exit
deriving DecidableEq, Repr

/-- What `allTorrentsFinished` does besides writing preferences. -/
inductive ShutdownEffect where
  /-- The call `ShutdownConfirmDialog::askForConfirmation(m_window, action)`. -/
  | askForConfirmation (action : ShutdownDialogAction)
  /-- The assignment `m_shutdownAct = action`. -/
  | setShutdownAct (action : ShutdownDialogAction)
  /-- The call `exit()`. -/
  | exit
deriving DecidableEq, Repr

/-- The local `haveAction` of `allTorrentsFinished`. -/
def haveAction (pref : Preferences) : Bool :=
  pref.shutdownqBTWhenDownloadsComplete || pref.shutdownWhenDownloadsComplete
    || pref.suspendWhenDownloadsComplete || pref.hibernateWhenDownloadsComplete

/-- The local `action` of `allTorrentsFinished` once the `if` chain has run. -/
def resolveAction (pref : Preferences) : ShutdownDialogAction :=
  if pref.suspendWhenDownloadsComplete then ShutdownDialogAction.Suspend
  else if pref.hibernateWhenDownloadsComplete then ShutdownDialogAction.Hibernate
  else if pref.shutdownWhenDownloadsComplete then ShutdownDialogAction.Shutdown
  else ShutdownDialogAction.Exit

/-- Whether `allTorrentsFinished` asks for confirmation: only in a GUI build,
and not when the action is `Exit` and `dontConfirmAutoExit` is set. -/
def asksConfirmation (gui : Bool) (pref : Preferences) : Bool :=
  gui && !(resolveAction pref == ShutdownDialogAction.Exit && pref.dontConfirmAutoExit)

/-- The function `Application::allTorrentsFinished`.  `confirmed` is the
answer that `askForConfirmation` gives if it is called. -/
def allTorrentsFinished (gui : Bool) (confirmed : Bool) (st : ShutdownState) :
    ShutdownState × List ShutdownEffect :=
  if !haveAction st.pref then (st, [])
  else
    let action := resolveAction st.pref
    if asksConfirmation gui st.pref && !confirmed then
      (st, [ShutdownEffect.askForConfirmation action])
    else
      let asked :=
        if asksConfirmation gui st.pref then [ShutdownEffect.askForConfirmation action]
        else []
      if action ≠ ShutdownDialogAction.Exit then
        ({ pref := { st.pref with shutdownWhenDownloadsComplete := false,
                                  suspendWhenDownloadsComplete := false,
                                  hibernateWhenDownloadsComplete := false },
           m_shutdownAct := action },
          asked ++ [ShutdownEffect.setShutdownAct action, ShutdownEffect.exit])
      else
        (st, asked ++ [ShutdownEffect.exit])

/-- Successive invocations of `allTorrentsFinished`, one confirmation answer
for each. -/
def finishedRun (gui : Bool) : ShutdownState → List Bool →
    ShutdownState × List ShutdownEffect
  | st, [] => (st, [])
  | st, confirmed :: later =>
    let r := allTorrentsFinished gui confirmed st
    let r1 := finishedRun gui r.1 later
    (r1.1, r.2 ++ r1.2)

/-- The rank of an action in the order Suspend, Hibernate, Shutdown, Exit. -/
def priority : ShutdownDialogAction → Nat
  | ShutdownDialogAction.Exit => 0
  | ShutdownDialogAction.Shutdown => 1
  | ShutdownDialogAction.Hibernate => 2
  | ShutdownDialogAction.Suspend => 3

/-- The actions whose preference is set. -/
def enabledActions (pref : Preferences) : List ShutdownDialogAction :=
  (if pref.shutdownqBTWhenDownloadsComplete then [ShutdownDialogAction.Exit] else [])
    ++ (if pref.shutdownWhenDownloadsComplete then [ShutdownDialogAction.Shutdown] else [])
    ++ (if pref.suspendWhenDownloadsComplete then [ShutdownDialogAction.Suspend] else [])
    ++ (if pref.hibernateWhenDownloadsComplete then [ShutdownDialogAction.Hibernate] else [])

/-- The values assigned to `m_shutdownAct` by a list of effects, in order. -/
def assignments (effects : List ShutdownEffect) : List ShutdownDialogAction :=
  effects.filterMap (fun e =>
    match e with
    | ShutdownEffect.setShutdownAct action => some action
    | _ => none)

/-- No power action is requested by the preferences. -/
def Quiet (pref : Preferences) : Prop :=
  pref.shutdownWhenDownloadsComplete = false ∧ pref.suspendWhenDownloadsComplete = false
    ∧ pref.hibernateWhenDownloadsComplete = false

/-! ## Startup order and `Application::cleanup` -/

/-- The conditional compilation switches: a GUI build (`DISABLE_GUI` not
defined), a build with the web UI (`DISABLE_WEBUI` not defined), a Windows
build (`Q_OS_WIN` defined). -/
structure Build where
  gui : Bool
  webui : Bool
  windows : Bool
deriving DecidableEq, Repr

/-- The singletons and owned objects that the constructor and `exec` create
and that `cleanup` frees. -/
inductive Subsystem where
  | Profile
  | Logger
  | SettingsStorage
  | Preferences
  | ProxyConfigurationManager
  | DownloadManager
  | IconProvider
  | Session
  | GeoIPManager
  | TorrentFilesWatcher
  | WebUI
  | RSSSession
  | RSSAutoDownloader
  | UIThemeManager
  | MainWindow
  | FileLogger
  | SearchPluginManager
deriving DecidableEq, Repr

/-- The singletons that the constructor `Application::Application`
initialises, in the order of the source. -/
def constructorInitOrder : List Subsystem :=
  [Subsystem.Profile, Subsystem.Logger, Subsystem.SettingsStorage, Subsystem.Preferences]

/-- The singletons and objects that `Application::exec` creates when no step
fails, in the order of the source. -/
def execInitOrder (build : Build) : List Subsystem :=
  [Subsystem.ProxyConfigurationManager, Subsystem.DownloadManager, Subsystem.IconProvider,
    Subsystem.Session, Subsystem.GeoIPManager, Subsystem.TorrentFilesWatcher]
    ++ (if build.webui then [Subsystem.WebUI] else [])
    ++ [Subsystem.RSSSession, Subsystem.RSSAutoDownloader]
    ++ (if build.gui then [Subsystem.UIThemeManager, Subsystem.MainWindow] else [])

/-- The order of initialisation over the constructor and a successful `exec`. -/
def startupOrder (build : Build) : List Subsystem :=
  constructorInitOrder ++ execInitOrder build

/-- A step of `Application::cleanup`. -/
inductive CleanupStep where
  /-- The call `m_window->hide()`. -/
  | hideWindow
  /-- The call `ShutdownBlockReasonCreate`. -/
  | shutdownBlockReasonCreate
  /-- The call `m_window->cleanup()`. -/
  | windowCleanup
  /-- A `freeInstance()` call or a `delete` of the subsystem. -/
  | free (subsystem : Subsystem)
  /-- The call `Utils::Fs::removeDirRecursive(Utils::Fs::tempPath())`. -/
  | removeTempDir
  /-- The call `ShutdownBlockReasonDestroy`. -/
  | shutdownBlockReasonDestroy
  /-- The call `Utils::Misc::shutdownComputer(m_shutdownAct)`. -/
  | shutdownComputer (action : ShutdownDialogAction)
deriving DecidableEq, Repr

/-- What `cleanup` reads and writes: the static `alreadyDone`, whether
`m_window` points to a window, and `m_shutdownAct`. -/
structure CleanupState where
  alreadyDone : Bool := false
  hasWindow : Bool := false
  m_shutdownAct : ShutdownDialogAction := ShutdownDialogAction.Exit
deriving DecidableEq, Repr

/-- The function `Application::cleanup`: the new state and the steps taken.
The guard `alreadyDone.testAndSetAcquire(0, 1)` lets the first call through
and sets the flag; `m_window` is a guarded pointer and is null once the
window is deleted. -/
def cleanup (build : Build) (st : CleanupState) : CleanupState × List CleanupStep :=
  if st.alreadyDone then (st, [])
  else
    ({ st with alreadyDone := true, hasWindow := false },
      (if build.gui && st.hasWindow then
          [CleanupStep.hideWindow]
            ++ (if build.windows then [CleanupStep.shutdownBlockReasonCreate] else [])
            ++ [CleanupStep.windowCleanup]
        else [])
      ++ (if build.webui then [CleanupStep.free Subsystem.WebUI] else [])
      ++ [CleanupStep.free Subsystem.RSSAutoDownloader,
          CleanupStep.free Subsystem.RSSSession,
          CleanupStep.free Subsystem.TorrentFilesWatcher,
          CleanupStep.free Subsystem.Session,
          CleanupStep.free Subsystem.GeoIPManager,
          CleanupStep.free Subsystem.DownloadManager,
          CleanupStep.free Subsystem.ProxyConfigurationManager,
          CleanupStep.free Subsystem.Preferences,
          CleanupStep.free Subsystem.SettingsStorage,
          CleanupStep.free Subsystem.FileLogger,
          CleanupStep.free Subsystem.Logger,
          CleanupStep.free Subsystem.IconProvider,
          CleanupStep.free Subsystem.SearchPluginManager,
          CleanupStep.removeTempDir]
      ++ (if build.gui && st.hasWindow then
          (if build.windows then [CleanupStep.shutdownBlockReasonDestroy] else [])
            ++ [CleanupStep.free Subsystem.MainWindow,
                CleanupStep.free Subsystem.UIThemeManager]
        else [])
      ++ [CleanupStep.free Subsystem.Profile]
      ++ (if st.m_shutdownAct ≠ ShutdownDialogAction.Exit then
          [CleanupStep.shutdownComputer st.m_shutdownAct]
        else []))

/-- The steps that a call of `cleanup` takes. -/
def cleanupSteps (build : Build) (st : CleanupState) : List CleanupStep :=
  (cleanup build st).2

/-- The function `cleanup` called `n` times in a row. -/
def cleanupTimes (build : Build) : Nat → CleanupState → CleanupState × List CleanupStep
  | 0, st => (st, [])
  | n + 1, st =>
    let r := cleanup build st
    let r1 := cleanupTimes build n r.1
    (r1.1, r.2 ++ r1.2)

/-- The subsystems freed by a list of steps, in order. -/
def freedSubsystems (steps : List CleanupStep) : List Subsystem :=
  steps.filterMap (fun step =>
    match step with
    | CleanupStep.free subsystem => some subsystem
    | _ => none)

/-- Whether a step is the power action. -/
def isPowerAction (step : CleanupStep) : Bool :=
  match step with
  | CleanupStep.shutdownComputer _ => true
  | _ => false

/-- The thirteen subsystems initialised by the constructor and by `exec`
before the user interface. -/
def coreSubsystems : List Subsystem :=
  [Subsystem.Profile, Subsystem.Logger, Subsystem.SettingsStorage, Subsystem.Preferences,
    Subsystem.ProxyConfigurationManager, Subsystem.DownloadManager, Subsystem.IconProvider,
    Subsystem.Session, Subsystem.GeoIPManager, Subsystem.TorrentFilesWatcher,
    Subsystem.WebUI, Subsystem.RSSSession, Subsystem.RSSAutoDownloader]

/-- The three subsystems that `cleanup` does not free in reverse order. -/
def outOfOrderSubsystems : List Subsystem :=
  [Subsystem.WebUI, Subsystem.GeoIPManager, Subsystem.IconProvider]

/-- A list restricted to the members of another. -/
def restrictTo (keep : List Subsystem) (l : List Subsystem) : List Subsystem :=
  l.filter (fun subsystem => keep.contains subsystem)

/-- A list without the members of another. -/
def without (drop : List Subsystem) (l : List Subsystem) : List Subsystem :=
  l.filter (fun subsystem => !drop.contains subsystem)

/-- The build with GUI and web UI, not for Windows. -/
def desktopBuild : Build :=
  { gui := true, webui := true, windows := false }

/-! ## The scan loop with its accesses recorded -/

/-- The scan loop of `runExternalProgram` as `scanFrom` runs it, recording for
every iteration the index `i` and the length of the program at that time.
It is `none` when a character is read outside the string. -/
def scanAccesses (text : Char → Option QString) : QString → Nat → Option (List (Nat × Nat))
  | _, 0 => some []
  | program, 1 => (iteration text program 0).map (fun _ => [(0, program.length)])
  | program, n + 2 =>
    match iteration text program (n + 1) with
    | none => none
    | some (program1, true) =>
      (scanAccesses text program1 n).map (fun log => (n + 1, program.length) :: log)
    | some (program1, false) =>
      (scanAccesses text program1 (n + 1)).map (fun log => (n + 1, program.length) :: log)

/-- The accesses of the scan that `runExternalProgram` makes for the
preference `autoRunProgram`. -/
def renderAccesses (host : Host) (torrent : Torrent) (autoRunProgram : QString) :
    Option (List (Nat × Nat)) :=
  scanAccesses (specifierText host torrent) (trimmed autoRunProgram)
    ((trimmed autoRunProgram).length - 1)

/-! ## `Application::exec` -/

/-- A step of `Application::exec`. -/
inductive ExecStep where
  /-- An `initInstance()` call or a `new` of the subsystem that succeeds. -/
  | init (subsystem : Subsystem)
  /-- The two `connect` calls on the session. -/
  | connectSessionSignals
  /-- The report of the `RuntimeError`: `fprintf` or the message box. -/
  | reportError
  /-- The call `BitTorrent::Session::instance()->startUpTorrents()`. -/
  | startUpTorrents
  /-- A dispatch made by `processParams` during the drain. -/
  | dispatch (request : Dispatch)
deriving DecidableEq, Repr

/-- What `exec` leaves behind: the steps taken, the members of the
application, and the value returned, `none` when `exec` goes on to the event
loop `BaseApplication::exec()`. -/
structure ExecOutcome where
  steps : List ExecStep
  app : Application
  returned : Option Int
deriving DecidableEq, Repr

/-- The function `Application::exec`.  Of the steps of the `try` block,
`Session::initInstance` throws a `RuntimeError` when `sessionInitThrows`, and
no other step throws; `webuiErrored` is the value of `m_webui->isErrored()`. -/
def exec (build : Build) (dialogEnabled sessionInitThrows webuiErrored : Bool)
    (app : Application) (params : QStringList) : ExecOutcome :=
  let before := [ExecStep.init Subsystem.ProxyConfigurationManager,
    ExecStep.init Subsystem.DownloadManager, ExecStep.init Subsystem.IconProvider]
  if sessionInitThrows then
    { steps := before ++ [ExecStep.reportError], app := app, returned := some 1 }
  else
    let upToWebUI := before
      ++ [ExecStep.init Subsystem.Session, ExecStep.connectSessionSignals,
          ExecStep.init Subsystem.GeoIPManager, ExecStep.init Subsystem.TorrentFilesWatcher]
      ++ (if build.webui then [ExecStep.init Subsystem.WebUI] else [])
    if build.webui && !build.gui && webuiErrored then
      { steps := upToWebUI, app := app, returned := some 1 }
    else
      let started := upToWebUI
        ++ [ExecStep.init Subsystem.RSSSession, ExecStep.init Subsystem.RSSAutoDownloader]
        ++ (if build.gui then
              [ExecStep.init Subsystem.UIThemeManager, ExecStep.init Subsystem.MainWindow]
            else [])
      let drained := execDrain { gui := build.gui, dialogEnabled := dialogEnabled } app params
      { steps := started ++ [ExecStep.startUpTorrents] ++ drained.2.map ExecStep.dispatch,
        app := drained.1,
        returned := none }

/-- The subsystems initialised by a list of steps, in order. -/
def initialised (steps : List ExecStep) : List Subsystem :=
  steps.filterMap (fun step =>
    match step with
    | ExecStep.init subsystem => some subsystem
    | _ => none)

/-! ## Concurrent calls of `Application::cleanup` -/

/-- Where a call of `cleanup` stands: before the guard, past the guard with
the steps of the teardown still to take, or returned at the guard. -/
inductive CallerState where
  | notStarted
  | tearingDown (remaining : List CleanupStep)
  | skipped
deriving DecidableEq, Repr

/-- Concurrent calls of `cleanup`: the static `alreadyDone`, the state of each
call, and the steps taken so far, each with the call that took it. -/
structure ConcurrentCleanup where
  alreadyDone : Bool := false
  callers : Nat → CallerState := fun _ => CallerState.notStarted
  trace : List (Nat × CleanupStep) := []

/-- One atomic step of the call `i`.  At the guard,
`alreadyDone.testAndSetAcquire(0, 1)` tests and sets the flag in one step:
the call goes on to the teardown if the flag was clear and returns otherwise.
Past the guard the call takes the next step of the teardown. -/
def scheduleStep (teardown : List CleanupStep) (g : ConcurrentCleanup) (i : Nat) :
    ConcurrentCleanup :=
  match g.callers i with
  | CallerState.notStarted =>
    if g.alreadyDone then
      { g with callers := fun j => if j = i then CallerState.skipped else g.callers j }
    else
      { g with alreadyDone := true,
               callers := fun j =>
                 if j = i then CallerState.tearingDown teardown else g.callers j }
  | CallerState.tearingDown [] => g
  | CallerState.tearingDown (step :: rest) =>
    { g with callers := fun j => if j = i then CallerState.tearingDown rest else g.callers j,
             trace := g.trace ++ [(i, step)] }
  | CallerState.skipped => g

/-- An interleaving: the calls take their steps in the order of `schedule`. -/
def runSchedule (teardown : List CleanupStep) (g : ConcurrentCleanup) (schedule : List Nat) :
    ConcurrentCleanup :=
  schedule.foldl (scheduleStep teardown) g

/-- Concurrent calls of `cleanup` on an application whose teardown has not
run, taken in the order of `schedule`. -/
def concurrentCleanup (build : Build) (st : CleanupState) (schedule : List Nat) :
    ConcurrentCleanup :=
  runSchedule (cleanupSteps build { st with alreadyDone := false }) {} schedule

/-- Whether a call went past the guard. -/
def CallerState.passed : CallerState → Bool
  | CallerState.tearingDown _ => true
  | _ => false

/-- The guard and the steps agree: the flag is set exactly when some call has
started, at most one call, the `winner`, is past the guard, and the steps
taken so far, all by the winner, followed by the steps it still has to take
are the teardown. -/
def GuardInvariant (teardown : List CleanupStep) (g : ConcurrentCleanup) : Prop :=
  (g.alreadyDone = false ∧ (∀ j, g.callers j = CallerState.notStarted) ∧ g.trace = [])
  ∨ (g.alreadyDone = true ∧ ∃ winner remaining,
      g.callers winner = CallerState.tearingDown remaining
      ∧ (∀ j, j ≠ winner →
          g.callers j = CallerState.notStarted ∨ g.callers j = CallerState.skipped)
      ∧ g.trace.map Prod.snd ++ remaining = teardown
      ∧ (∀ p ∈ g.trace, p.1 = winner))

/-! ## `PeerInfo::calcRelevance` -/

/-- A `QBitArray`, as the list of its bits. -/
abbrev QBitArray := List Bool

/-- The operator `~` of `QBitArray`. -/
def bitNot (a : QBitArray) : QBitArray :=
  a.map (fun bit => !bit)

/-- The operator `&` of `QBitArray`: the result has the length of the longer
array, the missing bits of the shorter one being taken as 0. -/
def bitAnd : QBitArray → QBitArray → QBitArray
  | [], b => b.map (fun _ => false)
  | _ :: a, [] => false :: bitAnd a []
  | x :: a, y :: b => (x && y) :: bitAnd a b

/-- The function `QBitArray::count(on)`. -/
def bitCount (a : QBitArray) (bit : Bool) : Nat :=
  a.count bit

/-- The local `remoteHaves` of `calcRelevance`. -/
def remoteHaves (allPieces peerPieces : QBitArray) : Nat :=
  bitCount (bitAnd peerPieces (bitNot allPieces)) true

/-- The value that `calcRelevance` returns, as the source forms it: the
literal `0`, or the `qreal` division
`static_cast<qreal>(numerator) / denominator`.  The division is kept as an
operation on its two operands, so that a division by zero is told apart from
a number and no rounding is assumed. -/
inductive Relevance where
  | zero
  | quotient (numerator denominator : Nat)
deriving DecidableEq, Repr

/-- Whether the value is the outcome of a division by zero. -/
def Relevance.dividesByZero : Relevance → Bool
  | Relevance.zero => false
  | Relevance.quotient _ denominator => denominator == 0

/-- The number that the value stands for before it is rounded to a `qreal`;
a division by zero stands for no number. -/
def Relevance.exact : Relevance → Option ℚ
  | Relevance.zero => some 0
  | Relevance.quotient numerator denominator =>
    if denominator = 0 then none else some ((numerator : ℚ) / (denominator : ℚ))

/-- The function `PeerInfo::calcRelevance`, from the pieces of the torrent and
those of the peer. -/
def calcRelevance (allPieces peerPieces : QBitArray) : Relevance :=
  let localMissing := bitCount allPieces false
  if localMissing ≤ 0 then Relevance.zero
  else Relevance.quotient (remoteHaves allPieces peerPieces) localMissing

/-- The number of pieces that the peer has and the torrent lacks. -/
def peerHasTorrentLacks (allPieces peerPieces : QBitArray) : Nat :=
  ((peerPieces.zip allPieces).filter (fun pair => pair.1 && !pair.2)).length

/-! ## The size setting of the file logger -/

/-- The constant `MIN_FILELOG_SIZE`. -/
def MIN_FILELOG_SIZE : Int := 1024

/-- The constant `MAX_FILELOG_SIZE`. -/
def MAX_FILELOG_SIZE : Int := 1000 * 1024 * 1024

/-- The constant `DEFAULT_FILELOG_SIZE`. -/
def DEFAULT_FILELOG_SIZE : Int := 65 * 1024

/-- What the size accessors read and write: the value stored under the key
`MaxSizeBytes`, if any, and the size held by `m_fileLogger` when there is a
file logger. -/
structure FileLoggerSettings where
  m_storeFileLoggerMaxSize : Option Int := none
  m_fileLogger : Option Int := none
deriving DecidableEq, Repr

/-- The function `Application::fileLoggerMaxSize`. -/
def fileLoggerMaxSize (s : FileLoggerSettings) : Int :=
  let val := s.m_storeFileLoggerMaxSize.getD DEFAULT_FILELOG_SIZE
  min (max val MIN_FILELOG_SIZE) MAX_FILELOG_SIZE

/-- The function `Application::setFileLoggerMaxSize`. -/
def setFileLoggerMaxSize (s : FileLoggerSettings) (bytes : Int) : FileLoggerSettings :=
  let clampedValue := min (max bytes MIN_FILELOG_SIZE) MAX_FILELOG_SIZE
  { m_storeFileLoggerMaxSize := some clampedValue,
    m_fileLogger := s.m_fileLogger.map (fun _ => clampedValue) }

/-! ## The loop of `processParams` over a concatenation -/

theorem applyDirective_eq_none_iff (acc : Accumulator) (param : QString) :
    applyDirective acc param = none ↔ isDirective param = false := by
  unfold applyDirective isDirective
  split_ifs <;> simp_all

theorem applyEntry_of_not_directive (acc : Accumulator) (raw : QString)
    (h : isDirective (trimmed raw) = false) : applyEntry acc raw = acc := by
  unfold applyEntry
  rw [(applyDirective_eq_none_iff acc (trimmed raw)).mpr h]
  rfl

theorem processLoop_cons_source (env : Env) (acc : Accumulator) (raw : QString)
    (rest : QStringList) (h : isDirective (trimmed raw) = false) :
    processLoop env acc (raw :: rest)
      = dispatch env acc (trimmed raw) :: processLoop env acc rest := by
  have hn := (applyDirective_eq_none_iff acc (trimmed raw)).mpr h
  simp [processLoop, hn]

theorem processLoop_cons_directive (env : Env) (acc : Accumulator) (raw : QString)
    (rest : QStringList) (h : isDirective (trimmed raw) = true) :
    processLoop env acc (raw :: rest) = processLoop env (applyEntry acc raw) rest := by
  cases hd : applyDirective acc (trimmed raw) with
  | none =>
    rw [(applyDirective_eq_none_iff acc (trimmed raw)).mp hd] at h
    exact absurd h (by decide)
  | some acc' => simp [processLoop, applyEntry, hd]

theorem processLoop_append (env : Env) (pre post : QStringList) (acc : Accumulator) :
    processLoop env acc (pre ++ post)
      = processLoop env acc pre ++ processLoop env (accumulate acc pre) post := by
  induction pre generalizing acc with
  | nil => simp [processLoop, accumulate]
  | cons raw rest ih =>
    cases hd : isDirective (trimmed raw) with
    | true =>
      have h1 := processLoop_cons_directive env acc raw (rest ++ post) hd
      have h2 := processLoop_cons_directive env acc raw rest hd
      simp only [List.cons_append, h1, h2, ih]
      simp [accumulate]
    | false =>
      have h1 := processLoop_cons_source env acc raw (rest ++ post) hd
      have h2 := processLoop_cons_source env acc raw rest hd
      simp only [List.cons_append, h1, h2, ih]
      simp [accumulate, applyEntry_of_not_directive acc raw hd]

theorem accumulate_append_singleton (acc : Accumulator) (pre : QStringList) (raw : QString) :
    accumulate acc (pre ++ [raw]) = applyEntry (accumulate acc pre) raw := by
  simp [accumulate]

theorem processParams_eq_processLoop (env : Env) (params : QStringList) (h : params ≠ []) :
    processParams env params = processLoop env {} params := by
  unfold processParams
  cases params with
  | nil => exact absurd rfl h
  | cons a l => simp

theorem dispatch_request (env : Env) (acc : Accumulator) (param : QString) :
    (dispatch env acc param).request = some (param, acc.torrentParams) := by
  unfold dispatch
  split_ifs <;> rfl

theorem processParams_decompose (env : Env) (pre post : QStringList) (e : QString)
    (hsrc : isDirective (trimmed e) = false) :
    processParams env (pre ++ e :: post)
      = processLoop env {} pre
        ++ dispatch env (optionsAfter pre) (trimmed e)
          :: processLoop env (optionsAfter pre) post := by
  rw [processParams_eq_processLoop env _ (by simp), processLoop_append,
    processLoop_cons_source env _ e post hsrc]
  rfl

theorem processLoop_directives (env : Env) (params : QStringList) (acc : Accumulator)
    (hall : ∀ e ∈ params, isDirective (trimmed e) = true) :
    processLoop env acc params = [] := by
  induction params generalizing acc with
  | nil => rfl
  | cons e rest ih =>
    rw [processLoop_cons_directive env acc e rest (hall e (List.mem_cons_self e rest))]
    exact ih _ (fun x hx => hall x (List.mem_cons_of_mem e hx))

theorem startsWith_exclusive (p a b : QString) (ha : startsWith p a = true)
    (hab : (a.isPrefixOf b || b.isPrefixOf a) = false) : startsWith p b = false := by
  cases hb : startsWith p b with
  | false => rfl
  | true =>
    have h1 : a <+: p := List.isPrefixOf_iff_prefix.mp ha
    have h2 : b <+: p := List.isPrefixOf_iff_prefix.mp hb
    rcases List.prefix_or_prefix_of_prefix h1 h2 with h | h
    · have := List.isPrefixOf_iff_prefix.mpr h
      simp [this] at hab
    · have := List.isPrefixOf_iff_prefix.mpr h
      simp [this] at hab

theorem ne_of_startsWith (p a b : QString) (ha : startsWith p a = true)
    (hb : startsWith b a = false) : p ≠ b := by
  intro h
  subst h
  rw [ha] at hb
  exact absurd hb (by decide)

theorem directiveKind (p : QString) : DirectiveKind p := by
  by_cases h1 : startsWith p "@savePath=".toList = true
  · exact .savePath h1 (startsWith_exclusive _ _ _ h1 (by decide))
      (ne_of_startsWith _ _ _ h1 (by decide)) (startsWith_exclusive _ _ _ h1 (by decide))
      (ne_of_startsWith _ _ _ h1 (by decide)) (ne_of_startsWith _ _ _ h1 (by decide))
      (startsWith_exclusive _ _ _ h1 (by decide))
  have h1 : startsWith p "@savePath=".toList = false := by simpa using h1
  by_cases h2 : startsWith p "@addPaused=".toList = true
  · exact .addPaused h1 h2
      (ne_of_startsWith _ _ _ h2 (by decide)) (startsWith_exclusive _ _ _ h2 (by decide))
      (ne_of_startsWith _ _ _ h2 (by decide)) (ne_of_startsWith _ _ _ h2 (by decide))
      (startsWith_exclusive _ _ _ h2 (by decide))
  have h2 : startsWith p "@addPaused=".toList = false := by simpa using h2
  by_cases h3 : p = "@skipChecking".toList
  · subst h3
    exact .skipChecking (by decide) (by decide) rfl (by decide) (by decide) (by decide)
      (by decide)
  by_cases h4 : startsWith p "@category=".toList = true
  · exact .category h1 h2 h3 h4
      (ne_of_startsWith _ _ _ h4 (by decide)) (ne_of_startsWith _ _ _ h4 (by decide))
      (startsWith_exclusive _ _ _ h4 (by decide))
  have h4 : startsWith p "@category=".toList = false := by simpa using h4
  by_cases h5 : p = "@sequential".toList
  · subst h5
    exact .sequential (by decide) (by decide) (by decide) (by decide) rfl (by decide)
      (by decide)
  by_cases h6 : p = "@firstLastPiecePriority".toList
  · subst h6
    exact .firstLastPiecePriority (by decide) (by decide) (by decide) (by decide)
      (by decide) rfl (by decide)
  by_cases h7 : startsWith p "@skipDialog=".toList = true
  · exact .skipDialog h1 h2 h3 h4 h5 h6 h7
  have h7 : startsWith p "@skipDialog=".toList = false := by simpa using h7
  exact .source h1 h2 h3 h4 h5 h6 h7

/-! ## Each option is decided by the last directive for its key -/

theorem lastValue_append_singleton (key : QString) (pre : QStringList) (raw : QString) :
    lastValue key (pre ++ [raw])
      = if startsWith (trimmed raw) key then some (mid (trimmed raw) key.length)
        else lastValue key pre := by
  unfold lastValue
  by_cases h : startsWith (trimmed raw) key = true <;> simp [h, List.find?_cons]

theorem hasFlag_append_singleton (flag : QString) (pre : QStringList) (raw : QString) :
    hasFlag flag (pre ++ [raw]) = (decide (trimmed raw = flag) || hasFlag flag pre) := by
  unfold hasFlag
  by_cases h : trimmed raw = flag
  · simp [h]
  · have h2 : ¬ flag = trimmed raw := fun e => h e.symm
    simp [h, h2]

theorem applyEntry_fields (acc : Accumulator) (raw : QString) :
    let p := trimmed raw
    let acc1 := applyEntry acc raw
    acc1.torrentParams.savePath
        = (if startsWith p "@savePath=".toList then mid p 10 else acc.torrentParams.savePath)
    ∧ acc1.torrentParams.addPaused
        = (if startsWith p "@addPaused=".toList then some (toInt (mid p 11) != 0)
           else acc.torrentParams.addPaused)
    ∧ acc1.torrentParams.skipChecking
        = (decide (p = "@skipChecking".toList) || acc.torrentParams.skipChecking)
    ∧ acc1.torrentParams.category
        = (if startsWith p "@category=".toList then mid p 10 else acc.torrentParams.category)
    ∧ acc1.torrentParams.sequential
        = (decide (p = "@sequential".toList) || acc.torrentParams.sequential)
    ∧ acc1.torrentParams.firstLastPiecePriority
        = (decide (p = "@firstLastPiecePriority".toList)
            || acc.torrentParams.firstLastPiecePriority)
    ∧ acc1.skipTorrentDialog
        = (if startsWith p "@skipDialog=".toList then some (toInt (mid p 12) != 0)
           else acc.skipTorrentDialog) := by
  intro p acc1
  rcases directiveKind p with ⟨h1, h2, h3, h4, h5, h6, h7⟩ | ⟨h1, h2, h3, h4, h5, h6, h7⟩
    | ⟨h1, h2, h3, h4, h5, h6, h7⟩ | ⟨h1, h2, h3, h4, h5, h6, h7⟩
    | ⟨h1, h2, h3, h4, h5, h6, h7⟩ | ⟨h1, h2, h3, h4, h5, h6, h7⟩
    | ⟨h1, h2, h3, h4, h5, h6, h7⟩ | ⟨h1, h2, h3, h4, h5, h6, h7⟩ <;>
  · simp only [acc1, applyEntry, applyDirective]
    simp_all [p]

theorem accumulate_fields (acc : Accumulator) (pre : QStringList) :
    let acc1 := accumulate acc pre
    acc1.torrentParams.savePath
        = ((lastValue "@savePath=".toList pre).getD acc.torrentParams.savePath)
    ∧ acc1.torrentParams.addPaused
        = ((lastValue "@addPaused=".toList pre).map (fun v => toInt v != 0)
            <|> acc.torrentParams.addPaused)
    ∧ acc1.torrentParams.skipChecking
        = (hasFlag "@skipChecking".toList pre || acc.torrentParams.skipChecking)
    ∧ acc1.torrentParams.category
        = ((lastValue "@category=".toList pre).getD acc.torrentParams.category)
    ∧ acc1.torrentParams.sequential
        = (hasFlag "@sequential".toList pre || acc.torrentParams.sequential)
    ∧ acc1.torrentParams.firstLastPiecePriority
        = (hasFlag "@firstLastPiecePriority".toList pre
            || acc.torrentParams.firstLastPiecePriority)
    ∧ acc1.skipTorrentDialog
        = ((lastValue "@skipDialog=".toList pre).map (fun v => toInt v != 0)
            <|> acc.skipTorrentDialog) := by
  induction pre using List.reverseRecOn with
  | nil => simp [accumulate, lastValue, hasFlag]
  | append_singleton pre raw ih =>
    obtain ⟨i1, i2, i3, i4, i5, i6, i7⟩ := ih
    obtain ⟨f1, f2, f3, f4, f5, f6, f7⟩ := applyEntry_fields (accumulate acc pre) raw
    simp only [accumulate_append_singleton, lastValue_append_singleton,
      hasFlag_append_singleton]
    refine ⟨?_, ?_, ?_, ?_, ?_, ?_, ?_⟩
    · rw [f1, i1]; split_ifs <;> rfl
    · rw [f2, i2]; split_ifs <;> rfl
    · rw [f3, i3, Bool.or_assoc]
    · rw [f4, i4]; split_ifs <;> rfl
    · rw [f5, i5, Bool.or_assoc]
    · rw [f6, i6, Bool.or_assoc]
    · rw [f7, i7]; split_ifs <;> rfl

theorem optionsAfter_torrentParams (pre : QStringList) :
    (optionsAfter pre).torrentParams =
      { savePath := (lastValue "@savePath=".toList pre).getD [],
        addPaused := (lastValue "@addPaused=".toList pre).map (fun v => toInt v != 0),
        skipChecking := hasFlag "@skipChecking".toList pre,
        category := (lastValue "@category=".toList pre).getD [],
        sequential := hasFlag "@sequential".toList pre,
        firstLastPiecePriority := hasFlag "@firstLastPiecePriority".toList pre } := by
  obtain ⟨f1, f2, f3, f4, f5, f6, _⟩ := accumulate_fields {} pre
  unfold optionsAfter
  cases hacc : (accumulate {} pre).torrentParams with
  | mk a b c d e f =>
    simp only [hacc] at f1 f2 f3 f4 f5 f6
    simp [f1, f2, f3, f4, f5, f6]

theorem optionsAfter_skipTorrentDialog (pre : QStringList) :
    (optionsAfter pre).skipTorrentDialog = lastSkipDialog pre := by
  obtain ⟨_, _, _, _, _, _, f7⟩ := accumulate_fields {} pre
  unfold optionsAfter lastSkipDialog
  rw [f7]
  simp

theorem showDialogForThisTorrent_eq (env : Env) (acc : Accumulator) :
    showDialogForThisTorrent env acc = dialogShown env.dialogEnabled acc.skipTorrentDialog := by
  unfold showDialogForThisTorrent dialogShown
  cases acc.skipTorrentDialog <;> simp

/-! ## Trimming -/

theorem dropWhile_append_cons_of_not (q : Char → Bool) (x y : QString) (c : Char)
    (hc : q c = false) : (x ++ c :: y).dropWhile q = x.dropWhile q ++ c :: y := by
  induction x with
  | nil => simp [List.dropWhile, hc]
  | cons a x ih =>
    by_cases ha : q a = true
    · simp [List.dropWhile, ha, ih]
    · simp [List.dropWhile, ha]

theorem trimRight_append_cons (a s : QString) (c : Char) (hc : isSpace c = false) :
    trimRight (a ++ c :: s) = a ++ c :: trimRight s := by
  unfold trimRight
  rw [List.reverse_append, List.reverse_cons, List.append_assoc, List.singleton_append,
    dropWhile_append_cons_of_not isSpace _ _ c hc]
  simp

theorem trimmed_key_append (h c : Char) (t s : QString) (hh : isSpace h = false)
    (hc : isSpace c = false) :
    trimmed (h :: (t ++ c :: s)) = h :: (t ++ c :: trimRight s) := by
  unfold trimmed
  rw [List.dropWhile_cons_of_neg (by simp [hh])]
  exact trimRight_append_cons (h :: t) s c hc

theorem startsWith_trimmed_key (h c : Char) (t e : QString) (hh : isSpace h = false)
    (hc : isSpace c = false) (hs : startsWith e (h :: (t ++ [c])) = true) :
    startsWith (trimmed e) (h :: (t ++ [c])) = true := by
  obtain ⟨s, rfl⟩ := List.isPrefixOf_iff_prefix.mp hs
  have : (h :: (t ++ [c])) ++ s = h :: (t ++ c :: s) := by simp
  rw [this, trimmed_key_append h c t s hh hc]
  apply List.isPrefixOf_iff_prefix.mpr
  exact ⟨trimRight s, by simp⟩

/-- An entry that is a directive as it stands is still one once trimmed. -/
theorem isDirective_trimmed (e : QString) (h : isDirective e = true) :
    isDirective (trimmed e) = true := by
  unfold isDirective at h ⊢
  simp only [Bool.or_eq_true, beq_iff_eq] at h ⊢
  rcases h with (((((h | h) | h) | h) | h) | h) | h
  · exact Or.inl <| Or.inl <| Or.inl <| Or.inl <| Or.inl <| Or.inl <|
      startsWith_trimmed_key '@' '=' "savePath".toList e (by decide) (by decide) h
  · exact Or.inl <| Or.inl <| Or.inl <| Or.inl <| Or.inl <| Or.inr <|
      startsWith_trimmed_key '@' '=' "addPaused".toList e (by decide) (by decide) h
  · subst h
    exact Or.inl <| Or.inl <| Or.inl <| Or.inl <| Or.inr (by decide)
  · exact Or.inl <| Or.inl <| Or.inl <| Or.inr <|
      startsWith_trimmed_key '@' '=' "category".toList e (by decide) (by decide) h
  · subst h
    exact Or.inl <| Or.inl <| Or.inr (by decide)
  · subst h
    exact Or.inl <| Or.inr (by decide)
  · exact Or.inr <|
      startsWith_trimmed_key '@' '=' "skipDialog".toList e (by decide) (by decide) h

theorem trimRight_cons (a : Char) (s : QString) :
    trimRight (a :: s)
      = if (trimRight s).isEmpty = true ∧ isSpace a = true then [] else a :: trimRight s := by
  unfold trimRight
  rw [List.reverse_cons, List.dropWhile_append]
  by_cases hs : (List.dropWhile isSpace s.reverse).isEmpty = true
  · have hnil : List.dropWhile isSpace s.reverse = [] := by simpa using hs
    by_cases ha : isSpace a = true
    · simp [hnil, ha, List.dropWhile]
    · simp [hnil, ha, List.dropWhile]
  · have hne : List.dropWhile isSpace s.reverse ≠ [] := by simpa using hs
    simp [hs, hne]

theorem dropWhile_trimRight (s : QString) :
    (trimRight s).dropWhile isSpace = trimRight (s.dropWhile isSpace) := by
  induction s with
  | nil => rfl
  | cons a s ih =>
    by_cases ha : isSpace a = true
    · rw [List.dropWhile_cons_of_pos ha, trimRight_cons]
      by_cases hs : (trimRight s).isEmpty = true
      · have hnil : trimRight s = [] := by simpa using hs
        rw [← ih, hnil]
        simp [ha]
      · rw [if_neg (fun h => hs h.1), List.dropWhile_cons_of_pos ha, ih]
    · rw [List.dropWhile_cons_of_neg ha, trimRight_cons, if_neg (fun h => ha h.2),
        List.dropWhile_cons_of_neg ha]

theorem trimRight_idempotent (s : QString) : trimRight (trimRight s) = trimRight s := by
  unfold trimRight
  rw [List.reverse_reverse, List.dropWhile_idempotent]

theorem trimmed_trimRight (s : QString) : trimmed (trimRight s) = trimmed s := by
  unfold trimmed
  rw [dropWhile_trimRight, trimRight_idempotent]

/-! ## Decimal integers and numeric directives -/

theorem readDigits_of_all_digits (ds : QString) (acc : Nat)
    (h : ds.all isDigit = true) :
    readDigits ds acc
      = some (Nat.ofDigits 10 (ds.reverse.map (fun c => c.toNat - 48))
          + 10 ^ ds.length * acc) := by
  induction ds generalizing acc with
  | nil => simp [readDigits]
  | cons c cs ih =>
    simp only [List.all_cons, Bool.and_eq_true] at h
    have hc : 48 ≤ c.toNat ∧ c.toNat ≤ 57 := by simpa [isDigit] using h.1
    simp only [readDigits, digitValue, hc, and_self, if_true]
    rw [ih _ h.2]
    simp only [List.reverse_cons, List.map_append, List.map_cons, List.map_nil,
      Nat.ofDigits_append, Nat.ofDigits_singleton, List.length_map, List.length_reverse,
      List.length_cons]
    congr 1
    ring

theorem readDigits_of_not_all_digits (ds : QString) (acc : Nat)
    (h : ds.all isDigit = false) : readDigits ds acc = none := by
  induction ds generalizing acc with
  | nil => simp at h
  | cons c cs ih =>
    by_cases hc : 48 ≤ c.toNat ∧ c.toNat ≤ 57
    · have hd : isDigit c = true := by simpa [isDigit] using hc
      simp only [List.all_cons, hd, Bool.true_and] at h
      simp only [readDigits, digitValue, hc, and_self, if_true]
      exact ih _ h
    · simp [readDigits, digitValue, hc]

theorem readUnsigned_of_digits (ds : QString) (hne : ds.isEmpty = false)
    (h : ds.all isDigit = true) :
    readUnsigned ds = some (Nat.ofDigits 10 (ds.reverse.map (fun c => c.toNat - 48))) := by
  cases ds with
  | nil => simp at hne
  | cons c cs =>
    simp only [readUnsigned]
    rw [readDigits_of_all_digits _ _ h]
    simp

theorem readUnsigned_of_not_digits (ds : QString)
    (h : (!ds.isEmpty && ds.all isDigit) = false) : readUnsigned ds = none := by
  cases ds with
  | nil => rfl
  | cons c cs =>
    simp only [readUnsigned]
    apply readDigits_of_not_all_digits
    simpa using h

theorem parseInteger_of_not_decimal (s : QString) (h : isDecimalInteger s = false) :
    parseInteger s = none := by
  unfold isDecimalInteger at h
  unfold parseInteger
  cases ht : trimmed s with
  | nil => rfl
  | cons c ds =>
    rw [ht] at h
    simp only [unsignedPart] at h
    by_cases h1 : c = '-'
    · simp only [h1, true_or, if_true] at h
      simp [h1, readUnsigned_of_not_digits ds h]
    · by_cases h2 : c = '+'
      · simp only [h2, or_true, if_true] at h
        simp [h2, readUnsigned_of_not_digits ds h]
      · simp only [h1, h2, or_self, if_false] at h
        simp [h1, h2, readUnsigned_of_not_digits (c :: ds) h]

theorem parseInteger_of_decimal (s : QString) (h : isDecimalInteger s = true) :
    parseInteger s = some (decimalValue s) := by
  unfold isDecimalInteger at h
  unfold parseInteger decimalValue
  cases ht : trimmed s with
  | nil => rw [ht] at h; simp [unsignedPart] at h
  | cons c ds =>
    rw [ht] at h
    simp only [unsignedPart] at h ⊢
    simp only [Bool.and_eq_true, Bool.not_eq_true'] at h
    by_cases h1 : c = '-'
    · simp only [h1, true_or, if_true] at h ⊢
      simp [readUnsigned_of_digits ds h.1 h.2]
    · by_cases h2 : c = '+'
      · simp only [h2, or_true, if_true] at h ⊢
        simp [readUnsigned_of_digits ds h.1 h.2]
      · simp only [h1, h2, or_self, if_false] at h ⊢
        simp [readUnsigned_of_digits (c :: ds) h.1 h.2, h1]

theorem toInt_of_not_decimal (s : QString) (h : isDecimalInteger s = false) :
    toInt s = 0 := by
  simp [toInt, parseInteger_of_not_decimal s h]

theorem toInt_of_decimal (s : QString) (h : isDecimalInteger s = true)
    (hmin : INT_MIN ≤ decimalValue s) (hmax : decimalValue s ≤ INT_MAX) :
    toInt s = decimalValue s := by
  simp [toInt, parseInteger_of_decimal s h, hmin, hmax]

theorem toInt_trimRight (s : QString) : toInt (trimRight s) = toInt s := by
  unfold toInt parseInteger
  rw [trimmed_trimRight]

theorem applyDirective_addPaused (acc : Accumulator) (s : QString) :
    applyDirective acc (trimmed ("@addPaused=".toList ++ s))
      = some (setAddPaused acc (toInt s != 0)) := by
  have ht : trimmed ("@addPaused=".toList ++ s) = "@addPaused=".toList ++ trimRight s :=
    trimmed_key_append '@' '=' "addPaused".toList s (by decide) (by decide)
  have hs : startsWith ("@addPaused=".toList ++ trimRight s) "@addPaused=".toList = true :=
    List.isPrefixOf_iff_prefix.mpr ⟨trimRight s, rfl⟩
  have h1 := startsWith_exclusive _ _ "@savePath=".toList hs (by decide)
  have hm : mid ("@addPaused=".toList ++ trimRight s) 11 = trimRight s := by
    simp [mid]
  rw [ht]
  unfold applyDirective
  rw [if_neg (ne_true_of_eq_false h1), if_pos hs, hm, toInt_trimRight]
  rfl

theorem applyDirective_skipDialog (acc : Accumulator) (s : QString) :
    applyDirective acc (trimmed ("@skipDialog=".toList ++ s))
      = some (setSkipDialog acc (toInt s != 0)) := by
  have ht : trimmed ("@skipDialog=".toList ++ s) = "@skipDialog=".toList ++ trimRight s :=
    trimmed_key_append '@' '=' "skipDialog".toList s (by decide) (by decide)
  have hs : startsWith ("@skipDialog=".toList ++ trimRight s) "@skipDialog=".toList = true :=
    List.isPrefixOf_iff_prefix.mpr ⟨trimRight s, rfl⟩
  have h1 := startsWith_exclusive _ _ "@savePath=".toList hs (by decide)
  have h2 := startsWith_exclusive _ _ "@addPaused=".toList hs (by decide)
  have h3 := ne_of_startsWith _ _ "@skipChecking".toList hs (by decide)
  have h4 := startsWith_exclusive _ _ "@category=".toList hs (by decide)
  have h5 := ne_of_startsWith _ _ "@sequential".toList hs (by decide)
  have h6 := ne_of_startsWith _ _ "@firstLastPiecePriority".toList hs (by decide)
  have hm : mid ("@skipDialog=".toList ++ trimRight s) 12 = trimRight s := by
    simp [mid]
  rw [ht]
  unfold applyDirective
  rw [if_neg (ne_true_of_eq_false h1), if_neg (ne_true_of_eq_false h2), if_neg h3,
    if_neg (ne_true_of_eq_false h4), if_neg h5, if_neg h6, if_pos hs, hm, toInt_trimRight]
  rfl

/-! ## The wire format -/

theorem splitOnP_parts (q : Char → Bool) (s : QString) :
    ∀ part ∈ s.splitOnP q, ∀ c ∈ part, q c = false := by
  induction s with
  | nil => simp
  | cons x xs ih =>
    rw [List.splitOnP_cons]
    by_cases hx : q x = true
    · simp only [hx, if_true]
      intro part hpart
      rcases List.mem_cons.mp hpart with h | h
      · subst h; simp
      · exact ih part h
    · simp only [hx]
      cases hrec : List.splitOnP q xs with
      | nil => exact absurd hrec (List.splitOnP_ne_nil q xs)
      | cons first others =>
        rw [hrec] at ih
        intro part hpart
        simp only [List.modifyHead, if_false] at hpart
        rcases List.mem_cons.mp hpart with h | h
        · subst h
          intro c hc
          rcases List.mem_cons.mp hc with h1 | h1
          · subst h1; simpa using hx
          · exact ih first (List.mem_cons_self _ _) c h1
        · exact ih part (List.mem_cons_of_mem _ h)

theorem splitOnP_flatten (q : Char → Bool) (s : QString) :
    (s.splitOnP q).flatten = s.filter (fun c => !q c) := by
  induction s with
  | nil => simp
  | cons x xs ih =>
    rw [List.splitOnP_cons]
    by_cases hx : q x = true
    · simp [hx, ih]
    · cases hrec : List.splitOnP q xs with
      | nil => exact absurd hrec (List.splitOnP_ne_nil q xs)
      | cons first others =>
        rw [hrec] at ih
        simp only [hx, if_false, List.modifyHead]
        simp only [List.flatten_cons] at ih
        simp [hx, ← ih]

/-- Every entry that `split` returns is non-empty and free of the separator. -/
theorem split_entries (s : QString) (sep : Char) :
    ∀ e ∈ split s sep, e ≠ [] ∧ sep ∉ e := by
  intro e he
  unfold split at he
  rw [List.mem_filter] at he
  refine ⟨by simpa using he.2, ?_⟩
  intro hmem
  have := splitOnP_parts (fun c => c == sep) s e he.1 sep hmem
  simp at this

/-- The entries that `split` returns, put end to end, are the string without
its separators. -/
theorem split_flatten (s : QString) (sep : Char) :
    (split s sep).flatten = s.filter (fun c => c != sep) := by
  unfold split
  rw [List.flatten_filter_not_isEmpty]
  exact splitOnP_flatten (fun c => c == sep) s

/-- Splitting a joined list gives back its non-empty entries, when no entry
holds the separator. -/
theorem split_join (l : QStringList) (sep : Char) (hsep : ∀ e ∈ l, sep ∉ e) :
    split (join l sep) sep = l.filter (fun e => !e.isEmpty) := by
  unfold split join
  by_cases hl : l = []
  · subst hl
    simp [List.intercalate, List.splitOn]
  · rw [List.splitOn_intercalate l sep hsep hl]

/-! ## Queueing and draining -/

theorem execDrain_state (env : Env) (app : Application) (params : QStringList) :
    (execDrain env app params).1 = { m_running := true, m_paramsQueue := [] } := by
  unfold execDrain
  cases hq : params ++ app.m_paramsQueue with
  | nil => simp
  | cons a l => simp

/-- C1: `processParams` scans a batch left to right with one accumulator that
starts unset.  A torrent source `e` that follows the entries `pre` is
dispatched, after the dispatches of `pre`, with the options obtained by
applying the directives of `pre` in order: each option has the value of the
last directive of `pre` for its key (unset or cleared when there is none),
entries after `e` play no part, and the loop goes on after `e` with the same
accumulator.  The two batches of the specification are dispatched as it says. -/
theorem processParams_source_uses_preceding_directives (env : Env) :
    (∀ (pre post : QStringList) (e : QString), isDirective (trimmed e) = false →
      processParams env (pre ++ e :: post)
          = processLoop env {} pre
            ++ dispatch env (optionsAfter pre) (trimmed e)
              :: processLoop env (optionsAfter pre) post
        ∧ (dispatch env (optionsAfter pre) (trimmed e)).request
            = some (trimmed e, (optionsAfter pre).torrentParams)
        ∧ optionsAfter (pre ++ [e]) = optionsAfter pre
        ∧ (optionsAfter pre).torrentParams =
            { savePath := (lastValue "@savePath=".toList pre).getD [],
              addPaused := (lastValue "@addPaused=".toList pre).map (fun v => toInt v != 0),
              skipChecking := hasFlag "@skipChecking".toList pre,
              category := (lastValue "@category=".toList pre).getD [],
              sequential := hasFlag "@sequential".toList pre,
              firstLastPiecePriority := hasFlag "@firstLastPiecePriority".toList pre })
    ∧ (processParams env
          ["@category=movies".toList, "a.torrent".toList, "b.torrent".toList]).map
        Dispatch.request
        = [some ("a.torrent".toList, { category := "movies".toList }),
           some ("b.torrent".toList, { category := "movies".toList })]
    ∧ (processParams env
          ["@addPaused=1".toList, "x.torrent".toList, "@addPaused=0".toList,
            "y.torrent".toList]).map Dispatch.request
        = [some ("x.torrent".toList, { addPaused := some true }),
           some ("y.torrent".toList, { addPaused := some false })] := by
  refine ⟨?_, ?_, ?_⟩
  · intro pre post e hsrc
    refine ⟨?_, dispatch_request _ _ _, ?_, optionsAfter_torrentParams pre⟩
    · rw [processParams_eq_processLoop env _ (by simp), processLoop_append,
        processLoop_cons_source env _ e post hsrc]
      rfl
    · unfold optionsAfter
      rw [accumulate_append_singleton, applyEntry_of_not_directive _ _ hsrc]
  · rcases env with ⟨_ | _, _ | _⟩ <;> decide
  · rcases env with ⟨_ | _, _ | _⟩ <;> decide

theorem processParams_source_uses_preceding_directives_witness :
    isDirective (trimmed "a.torrent".toList) = false
    ∧ processParams ⟨true, false⟩
        (["@category=tv".toList, " @sequential ".toList, "@category=movies".toList]
          ++ "a.torrent".toList :: ["@category=late".toList])
      = processLoop ⟨true, false⟩ {}
          ["@category=tv".toList, " @sequential ".toList, "@category=movies".toList]
        ++ dispatch ⟨true, false⟩
            (optionsAfter
              ["@category=tv".toList, " @sequential ".toList, "@category=movies".toList])
            (trimmed "a.torrent".toList)
          :: processLoop ⟨true, false⟩
              (optionsAfter
                ["@category=tv".toList, " @sequential ".toList, "@category=movies".toList])
              ["@category=late".toList] :=
  ⟨by decide,
    ((processParams_source_uses_preceding_directives ⟨true, false⟩).1
      ["@category=tv".toList, " @sequential ".toList, "@category=movies".toList]
      ["@category=late".toList] "a.torrent".toList (by decide)).1⟩

/-- C2: a non-empty batch whose entries are all recognised option directives
(as they stand, or once trimmed as the loop trims them) makes `processParams`
dispatch nothing: no `addTorrent`, no add dialog, no other call. -/
theorem processParams_only_directives_no_dispatch (env : Env) (params : QStringList)
    (hne : params ≠ [])
    (hall : ∀ e ∈ params, isDirective e = true ∨ isDirective (trimmed e) = true) :
    processParams env params = [] := by
  rw [processParams_eq_processLoop env params hne]
  apply processLoop_directives
  intro e he
  rcases hall e he with h | h
  · exact isDirective_trimmed e h
  · exact h

theorem processParams_only_directives_no_dispatch_witness :
    ["@savePath=/tmp".toList, "@addPaused=1".toList, "@skipChecking".toList,
        "@category=movies".toList, " @sequential".toList,
        "@firstLastPiecePriority".toList, "@skipDialog=0".toList] ≠ []
    ∧ (∀ e ∈ ["@savePath=/tmp".toList, "@addPaused=1".toList, "@skipChecking".toList,
        "@category=movies".toList, " @sequential".toList,
        "@firstLastPiecePriority".toList, "@skipDialog=0".toList],
        isDirective e = true ∨ isDirective (trimmed e) = true)
    ∧ processParams ⟨true, true⟩
        ["@savePath=/tmp".toList, "@addPaused=1".toList, "@skipChecking".toList,
          "@category=movies".toList, " @sequential".toList,
          "@firstLastPiecePriority".toList, "@skipDialog=0".toList] = [] :=
  ⟨by decide, by decide,
    processParams_only_directives_no_dispatch ⟨true, true⟩ _ (by decide) (by decide)⟩

/-- C3, the code at the failing input: the messages `@category=movies` and
`a.torrent` arrive, in this order, before the application runs; the drain of
`exec` then adds `a.torrent` with the category `movies`.  The same message
`a.torrent` queued alone, or received once the application runs, is added
with no category. -/
theorem queued_directive_leaks_into_next_message :
    (execDrain ⟨false, false⟩
        (processMessage ⟨false, false⟩
          (processMessage ⟨false, false⟩ {} "@category=movies".toList).1
          "a.torrent".toList).1 []).2
      = [Dispatch.addTorrent "a.torrent".toList { category := "movies".toList }]
    ∧ (execDrain ⟨false, false⟩
        (processMessage ⟨false, false⟩ {} "a.torrent".toList).1 []).2
      = [Dispatch.addTorrent "a.torrent".toList {}]
    ∧ (processMessage ⟨false, false⟩
        (processMessage ⟨false, false⟩ { m_running := true } "@category=movies".toList).1
        "a.torrent".toList).2
      = [Dispatch.addTorrent "a.torrent".toList {}] := by
  decide

/-- C4, as the code behaves: the claim that an unrecognised directive is
ignored fails.  The entry `@unknown=1` starts with `@`, is none of the
recognised directives, and is dispatched as a torrent source: to
`addTorrent` in a build without GUI, to the add dialog in a GUI build whose
dialog is enabled. -/
theorem unknown_directive_is_dispatched :
    startsWith (trimmed "@unknown=1".toList) "@".toList = true
    ∧ isDirective (trimmed "@unknown=1".toList) = false
    ∧ processParams ⟨false, false⟩ ["@unknown=1".toList]
        = [Dispatch.addTorrent "@unknown=1".toList {}]
    ∧ processParams ⟨true, true⟩ ["@unknown=1".toList]
        = [Dispatch.showDialog "@unknown=1".toList {}]
    ∧ processParams ⟨false, false⟩ ["@unknown=1".toList] ≠ [] := by
  decide

/-- C4, amended: an entry that starts with `@` and is none of the recognised
directives is treated as a torrent source.  Wherever it stands in a batch it
is dispatched once, under its trimmed text and with the options accumulated
so far, and it leaves the accumulated options unchanged for the entries
after it. -/
theorem unrecognized_directive_is_a_source (env : Env) (acc : Accumulator)
    (e : QString) (rest : QStringList)
    (_hat : startsWith (trimmed e) "@".toList = true)
    (hun : isDirective (trimmed e) = false) :
    processLoop env acc (e :: rest)
        = dispatch env acc (trimmed e) :: processLoop env acc rest
    ∧ (dispatch env acc (trimmed e)).request = some (trimmed e, acc.torrentParams)
    ∧ applyEntry acc e = acc :=
  ⟨processLoop_cons_source env acc e rest hun, dispatch_request env acc (trimmed e),
    applyEntry_of_not_directive acc e hun⟩

theorem unrecognized_directive_is_a_source_witness :
    startsWith (trimmed "@unknown=1".toList) "@".toList = true
    ∧ isDirective (trimmed "@unknown=1".toList) = false
    ∧ (processLoop ⟨true, false⟩ { torrentParams := { category := "tv".toList } }
          ("@unknown=1".toList :: ["a.torrent".toList])
        = dispatch ⟨true, false⟩ { torrentParams := { category := "tv".toList } }
            (trimmed "@unknown=1".toList)
          :: processLoop ⟨true, false⟩ { torrentParams := { category := "tv".toList } }
              ["a.torrent".toList]
      ∧ (dispatch ⟨true, false⟩ { torrentParams := { category := "tv".toList } }
            (trimmed "@unknown=1".toList)).request
          = some (trimmed "@unknown=1".toList, { category := "tv".toList })
      ∧ applyEntry { torrentParams := { category := "tv".toList } } "@unknown=1".toList
          = { torrentParams := { category := "tv".toList } }) :=
  ⟨by decide, by decide,
    unrecognized_directive_is_a_source ⟨true, false⟩
      { torrentParams := { category := "tv".toList } } "@unknown=1".toList
      ["a.torrent".toList] (by decide) (by decide)⟩

/-- C5, as the code behaves: the choice of the dialog is not the exclusive or
of the preference and the override.  In a GUI build with the dialog
preference off, `@skipDialog=1` then `a.torrent` goes to `addTorrent` although
the exclusive or is true, and `@skipDialog=0` then `a.torrent` opens the
dialog although the exclusive or is false. -/
theorem dialog_choice_is_not_xor :
    processParams ⟨true, false⟩ ["@skipDialog=1".toList, "a.torrent".toList]
        = [Dispatch.addTorrent "a.torrent".toList {}]
    ∧ (optionsAfter ["@skipDialog=1".toList]).skipTorrentDialog = some true
    ∧ xor false (((optionsAfter ["@skipDialog=1".toList]).skipTorrentDialog).getD false) = true
    ∧ showDialogForThisTorrent ⟨true, false⟩ (optionsAfter ["@skipDialog=1".toList])
        ≠ xor false (((optionsAfter ["@skipDialog=1".toList]).skipTorrentDialog).getD false)
    ∧ processParams ⟨true, false⟩ ["@skipDialog=0".toList, "a.torrent".toList]
        = [Dispatch.showDialog "a.torrent".toList {}]
    ∧ xor false (((optionsAfter ["@skipDialog=0".toList]).skipTorrentDialog).getD false)
        = false := by
  decide

/-- C5, amended: in a GUI build a torrent source `e` that follows the entries
`pre` goes to the add dialog exactly when no `@skipDialog` override is in
force and the preference is on, or an override is in force and is false;
otherwise `addTorrent` is called directly.  This is the exclusive or of the
preference and the override (absent counting as false) whenever the
preference is on or no override is in force. -/
theorem dialog_choice_is_override (env : Env) (pre post : QStringList) (e : QString)
    (hgui : env.gui = true) (hsrc : isDirective (trimmed e) = false) :
    processParams env (pre ++ e :: post)
        = processLoop env {} pre
          ++ (if dialogShown env.dialogEnabled (optionsAfter pre).skipTorrentDialog then
                Dispatch.showDialog (trimmed e) (optionsAfter pre).torrentParams
              else Dispatch.addTorrent (trimmed e) (optionsAfter pre).torrentParams)
            :: processLoop env (optionsAfter pre) post
    ∧ (env.dialogEnabled = true ∨ (optionsAfter pre).skipTorrentDialog = none →
        dialogShown env.dialogEnabled (optionsAfter pre).skipTorrentDialog
          = xor env.dialogEnabled (((optionsAfter pre).skipTorrentDialog).getD false)) := by
  refine ⟨?_, ?_⟩
  · rw [processParams_decompose env pre post e hsrc]
    simp [dispatch, hgui, showDialogForThisTorrent_eq]
  · intro h
    rcases h with h | h
    · rw [h]
      cases (optionsAfter pre).skipTorrentDialog <;> simp [dialogShown]
    · rw [h]
      simp [dialogShown]

theorem dialog_choice_is_override_witness :
    (⟨true, false⟩ : Env).gui = true
    ∧ isDirective (trimmed "a.torrent".toList) = false
    ∧ processParams ⟨true, false⟩ (["@skipDialog=0".toList] ++ "a.torrent".toList :: [])
        = processLoop ⟨true, false⟩ {} ["@skipDialog=0".toList]
          ++ (if dialogShown false (optionsAfter ["@skipDialog=0".toList]).skipTorrentDialog
              then
                Dispatch.showDialog (trimmed "a.torrent".toList)
                  (optionsAfter ["@skipDialog=0".toList]).torrentParams
              else
                Dispatch.addTorrent (trimmed "a.torrent".toList)
                  (optionsAfter ["@skipDialog=0".toList]).torrentParams)
            :: processLoop ⟨true, false⟩ (optionsAfter ["@skipDialog=0".toList]) [] :=
  ⟨rfl, by decide,
    (dialog_choice_is_override ⟨true, false⟩ ["@skipDialog=0".toList] []
      "a.torrent".toList rfl (by decide)).1⟩

/-- C6: in a GUI build a torrent source `e` that follows the entries `pre` is
handed to exactly one of the two targets.  It goes to the add dialog in two
circumstances: no `@skipDialog` directive precedes it and
`AddNewTorrentDialog::isEnabled()` is true, or the last `@skipDialog`
directive that precedes it has the value false.  In every other case it goes
to `Session::addTorrent`. -/
theorem dialog_shown_in_two_circumstances (env : Env) (pre post : QStringList)
    (e : QString) (hgui : env.gui = true) (hsrc : isDirective (trimmed e) = false) :
    processParams env (pre ++ e :: post)
      = processLoop env {} pre
        ++ (if (lastSkipDialog pre = none ∧ env.dialogEnabled = true)
              ∨ lastSkipDialog pre = some false then
              Dispatch.showDialog (trimmed e) (optionsAfter pre).torrentParams
            else Dispatch.addTorrent (trimmed e) (optionsAfter pre).torrentParams)
          :: processLoop env (optionsAfter pre) post := by
  rw [processParams_decompose env pre post e hsrc]
  have hskip := optionsAfter_skipTorrentDialog pre
  unfold dispatch showDialogForThisTorrent
  rw [hskip, hgui]
  cases hl : lastSkipDialog pre with
  | none => cases hd : env.dialogEnabled <;> simp
  | some skip => cases skip <;> simp

theorem dialog_shown_in_two_circumstances_witness :
    (⟨true, true⟩ : Env).gui = true
    ∧ isDirective (trimmed "a.torrent".toList) = false
    ∧ processParams ⟨true, true⟩
        (["@skipDialog=0".toList, "@skipDialog=1".toList] ++ "a.torrent".toList :: [])
      = processLoop ⟨true, true⟩ {} ["@skipDialog=0".toList, "@skipDialog=1".toList]
        ++ (if (lastSkipDialog ["@skipDialog=0".toList, "@skipDialog=1".toList] = none
                ∧ (⟨true, true⟩ : Env).dialogEnabled = true)
              ∨ lastSkipDialog ["@skipDialog=0".toList, "@skipDialog=1".toList]
                  = some false then
              Dispatch.showDialog (trimmed "a.torrent".toList)
                (optionsAfter ["@skipDialog=0".toList, "@skipDialog=1".toList]).torrentParams
            else
              Dispatch.addTorrent (trimmed "a.torrent".toList)
                (optionsAfter ["@skipDialog=0".toList, "@skipDialog=1".toList]).torrentParams)
          :: processLoop ⟨true, true⟩
              (optionsAfter ["@skipDialog=0".toList, "@skipDialog=1".toList]) [] :=
  ⟨rfl, by decide,
    dialog_shown_in_two_circumstances ⟨true, true⟩
      ["@skipDialog=0".toList, "@skipDialog=1".toList] [] "a.torrent".toList rfl
      (by decide)⟩

/-- C7: a numeric directive never stops the batch and a malformed value counts
as false.  For every text `s`, the entry `@addPaused=` followed by `s` sets
the paused option to the definite value `toInt s != 0`, dispatches nothing and
lets the loop go on with the remaining entries; so does `@skipDialog=` for
the skip-dialog override.  When `s` is not a decimal integer the value is
`some false`, not unset; when `s` is a decimal integer whose value `n` fits
32 bits the value is `some (n != 0)`. -/
theorem numeric_directive_defaults_to_false (env : Env) (acc : Accumulator)
    (s : QString) (rest : QStringList) :
    processLoop env acc (("@addPaused=".toList ++ s) :: rest)
        = processLoop env (setAddPaused acc (toInt s != 0)) rest
    ∧ processLoop env acc (("@skipDialog=".toList ++ s) :: rest)
        = processLoop env (setSkipDialog acc (toInt s != 0)) rest
    ∧ (isDecimalInteger s = false →
        (setAddPaused acc (toInt s != 0)).torrentParams.addPaused = some false
        ∧ (setSkipDialog acc (toInt s != 0)).skipTorrentDialog = some false)
    ∧ (isDecimalInteger s = true → INT_MIN ≤ decimalValue s → decimalValue s ≤ INT_MAX →
        (setAddPaused acc (toInt s != 0)).torrentParams.addPaused
          = some (decimalValue s != 0)
        ∧ (setSkipDialog acc (toInt s != 0)).skipTorrentDialog
          = some (decimalValue s != 0)) := by
  refine ⟨?_, ?_, ?_, ?_⟩
  · simp only [processLoop, applyDirective_addPaused]
  · simp only [processLoop, applyDirective_skipDialog]
  · intro h
    rw [toInt_of_not_decimal s h]
    exact ⟨rfl, rfl⟩
  · intro h hmin hmax
    rw [toInt_of_decimal s h hmin hmax]
    exact ⟨rfl, rfl⟩

theorem numeric_directive_defaults_to_false_witness :
    (isDecimalInteger "yes".toList = false
      ∧ (setAddPaused {} (toInt "yes".toList != 0)).torrentParams.addPaused = some false
      ∧ (setSkipDialog {} (toInt "yes".toList != 0)).skipTorrentDialog = some false)
    ∧ (isDecimalInteger "-7".toList = true
      ∧ INT_MIN ≤ decimalValue "-7".toList
      ∧ decimalValue "-7".toList ≤ INT_MAX
      ∧ (setAddPaused {} (toInt "-7".toList != 0)).torrentParams.addPaused
          = some (decimalValue "-7".toList != 0)
      ∧ (setSkipDialog {} (toInt "-7".toList != 0)).skipTorrentDialog
          = some (decimalValue "-7".toList != 0)) :=
  ⟨⟨by decide,
      (numeric_directive_defaults_to_false ⟨true, true⟩ {} "yes".toList []).2.2.1
        (by decide)⟩,
    ⟨by decide, by decide, by decide,
      (numeric_directive_defaults_to_false ⟨true, true⟩ {} "-7".toList []).2.2.2
        (by decide) (by decide) (by decide)⟩⟩

/-! ## Properties of the wire format and of the queue -/

/-- C8, as the code behaves: the round trip does not give back every batch
whose entries are free of the separator.  The batch made of one empty entry
is sent as the empty message and comes back as the empty batch, and an empty
entry between two others is lost. -/
theorem roundtrip_drops_empty_entries :
    (∀ e ∈ ([[]] : QStringList), PARAMS_SEPARATOR ∉ e)
    ∧ split (sendParams [[]]) PARAMS_SEPARATOR = []
    ∧ split (sendParams [[]]) PARAMS_SEPARATOR ≠ [[]]
    ∧ split (sendParams ["a".toList, [], "b".toList]) PARAMS_SEPARATOR
        = ["a".toList, "b".toList] := by
  decide

/-- C8, amended: for every batch in which no entry contains the separator `|`
and no entry is empty, splitting the message built by `sendParams` the way
`processMessage` splits it gives back the batch, entry for entry and in the
same order. -/
theorem sendParams_split_roundtrip (batch : QStringList)
    (hsep : ∀ e ∈ batch, PARAMS_SEPARATOR ∉ e) (hne : ∀ e ∈ batch, e ≠ []) :
    split (sendParams batch) PARAMS_SEPARATOR = batch := by
  unfold sendParams
  rw [split_join batch PARAMS_SEPARATOR hsep, List.filter_eq_self]
  intro e he
  cases e with
  | nil => exact absurd rfl (hne [] he)
  | cons c cs => rfl

theorem sendParams_split_roundtrip_witness :
    (∀ e ∈ ["@category=movies".toList, "a.torrent".toList], PARAMS_SEPARATOR ∉ e)
    ∧ (∀ e ∈ ["@category=movies".toList, "a.torrent".toList], e ≠ [])
    ∧ split (sendParams ["@category=movies".toList, "a.torrent".toList]) PARAMS_SEPARATOR
        = ["@category=movies".toList, "a.torrent".toList] :=
  ⟨by decide, by decide,
    sendParams_split_roundtrip ["@category=movies".toList, "a.torrent".toList]
      (by decide) (by decide)⟩

/-- C9: `processMessage` queues or routes.  When `m_running` is false it
dispatches nothing and appends the entries of the message at the end of the
queue, what was queued staying in front unchanged; when `m_running` is true
it hands the entries to `processParams` at once and leaves the queue as it
is.  In both cases `m_running` keeps its value.  The entries are the
non-empty parts of the message between separators, in order: each is
non-empty and free of `|`, and end to end they are the message without
its separators. -/
theorem processMessage_queues_or_routes (env : Env) (app : Application)
    (message : QString) :
    (app.m_running = false →
      processMessage env app message
        = ({ m_running := false,
             m_paramsQueue := app.m_paramsQueue ++ split message PARAMS_SEPARATOR }, []))
    ∧ (app.m_running = true →
      processMessage env app message
        = (app, processParams env (split message PARAMS_SEPARATOR)))
    ∧ split message PARAMS_SEPARATOR
        = (message.splitOn PARAMS_SEPARATOR).filter (fun part => !part.isEmpty)
    ∧ (∀ e ∈ split message PARAMS_SEPARATOR, e ≠ [] ∧ PARAMS_SEPARATOR ∉ e)
    ∧ (split message PARAMS_SEPARATOR).flatten
        = message.filter (fun c => c != PARAMS_SEPARATOR) := by
  refine ⟨?_, ?_, rfl, split_entries message PARAMS_SEPARATOR,
    split_flatten message PARAMS_SEPARATOR⟩
  · intro h
    simp [processMessage, h]
  · intro h
    simp [processMessage, h]

theorem processMessage_queues_or_routes_witness :
    (({ m_running := false, m_paramsQueue := ["x.torrent".toList] } : Application).m_running
        = false
      ∧ processMessage ⟨true, true⟩
          { m_running := false, m_paramsQueue := ["x.torrent".toList] }
          "@category=tv||a.torrent|".toList
        = ({ m_running := false,
             m_paramsQueue := ["x.torrent".toList]
               ++ split "@category=tv||a.torrent|".toList PARAMS_SEPARATOR }, []))
    ∧ (({ m_running := true, m_paramsQueue := [] } : Application).m_running = true
      ∧ processMessage ⟨true, true⟩ { m_running := true, m_paramsQueue := [] }
          "@category=tv||a.torrent|".toList
        = ({ m_running := true, m_paramsQueue := [] },
            processParams ⟨true, true⟩
              (split "@category=tv||a.torrent|".toList PARAMS_SEPARATOR))) :=
  ⟨⟨rfl, (processMessage_queues_or_routes ⟨true, true⟩
      { m_running := false, m_paramsQueue := ["x.torrent".toList] }
      "@category=tv||a.torrent|".toList).1 rfl⟩,
    ⟨rfl, (processMessage_queues_or_routes ⟨true, true⟩
      { m_running := true, m_paramsQueue := [] }
      "@category=tv||a.torrent|".toList).2.1 rfl⟩⟩

theorem substitute_cons_of_ne (text : Char → Option QString) (a : Char) (s : QString)
    (h : a ≠ '%') : substitute text (a :: s) = a :: substitute text s := by
  cases s with
  | nil => simp [substitute]
  | cons b rest => simp [substitute, h]

theorem sealed_percent (text : Char → Option QString) (htext : text '%' = none)
    (c : Char) (s : QString) : Sealed text c ('%' :: s) := by
  unfold Sealed
  by_cases hc : c = '%'
  · subst hc
    simp [substitute, htext]
  · exact substitute_cons_of_ne text c _ hc

theorem substitute_directive (text : Char → Option QString) (b : Char) (suf t : QString)
    (h : text b = some t) :
    substitute text ('%' :: b :: suf) = t ++ substitute text suf := by
  simp [substitute, h]

theorem substitute_lone_percent (text : Char → Option QString) (b : Char) (suf : QString)
    (h : text b = none) :
    substitute text ('%' :: b :: suf) = '%' :: substitute text (b :: suf) := by
  simp [substitute, h]

theorem getElem?_append_cons_length (q : QString) (a : Char) (r : QString) :
    (q ++ a :: r)[q.length]? = some a := by
  rw [List.getElem?_append_right (le_refl _)]
  simp

theorem getElem?_append_cons_succ (q : QString) (a b : Char) (r : QString) :
    (q ++ a :: b :: r)[q.length + 1]? = some b := by
  rw [List.getElem?_append_right (by omega)]
  simp

theorem replace_append_cons (q : QString) (a b : Char) (r t : QString) :
    replace (q ++ a :: b :: r) q.length 2 t = q ++ (t ++ r) := by
  unfold replace
  rw [List.take_left, List.drop_append]
  simp

theorem iteration_of_ne (text : Char → Option QString) (q : QString) (a : Char)
    (r : QString) (ha : a ≠ '%') :
    iteration text (q ++ a :: r) q.length = some (q ++ a :: r, false) := by
  unfold iteration
  rw [getElem?_append_cons_length]
  simp [ha]

theorem iteration_of_directive (text : Char → Option QString) (q : QString) (b : Char)
    (r t : QString) (h : text b = some t) :
    iteration text (q ++ '%' :: b :: r) q.length = some (q ++ (t ++ r), true) := by
  unfold iteration
  rw [getElem?_append_cons_length, getElem?_append_cons_succ]
  simp [h, replace_append_cons]

theorem iteration_of_lone_percent (text : Char → Option QString) (q : QString) (b : Char)
    (r : QString) (h : text b = none) :
    iteration text (q ++ '%' :: b :: r) q.length = some (q ++ '%' :: b :: r, true) := by
  unfold iteration
  rw [getElem?_append_cons_length, getElem?_append_cons_succ]
  simp [h]

/-- One iteration at the last but one character of the part not yet scanned:
the program afterwards, whether the index steps back twice, and what the
scanned part has become. -/
theorem iteration_step (text : Char → Option QString) (q : QString) (a b : Char)
    (suf : QString) (hsealed : Sealed text b suf) :
    (a ≠ '%' ∧ iteration text (q ++ a :: b :: substitute text suf) q.length
        = some (q ++ substitute text (a :: b :: suf), false))
    ∨ (a = '%' ∧ iteration text (q ++ a :: b :: substitute text suf) q.length
        = some (q ++ substitute text (a :: b :: suf), true)) := by
  by_cases ha : a = '%'
  · right
    refine ⟨ha, ?_⟩
    subst ha
    cases htb : text b with
    | none =>
      rw [iteration_of_lone_percent text q b _ htb, substitute_lone_percent text b suf htb,
        hsealed]
    | some t =>
      rw [iteration_of_directive text q b _ t htb, substitute_directive text b suf t htb]
  · left
    refine ⟨ha, ?_⟩
    rw [iteration_of_ne text q a _ ha, substitute_cons_of_ne text a _ ha, hsealed]

theorem scanFrom_substitute (text : Char → Option QString) (htext : text '%' = none) :
    ∀ (m : Nat) (p : QString) (b : Char) (suf : QString), p.length = m →
      Sealed text b suf →
      scanFrom text (p ++ b :: substitute text suf) m
        = some (substitute text (p ++ b :: suf)) := by
  intro m
  induction m using Nat.strong_induction_on with
  | _ m ih =>
    intro p b suf hlen hsealed
    rcases List.eq_nil_or_concat' p with rfl | ⟨q, a, rfl⟩
    · subst hlen
      show scanFrom text (b :: substitute text suf) 0 = some (substitute text (b :: suf))
      rw [scanFrom, hsealed]
    · simp only [List.length_append, List.length_singleton] at hlen
      have hprog : (q ++ [a]) ++ b :: substitute text suf
          = q ++ a :: b :: substitute text suf := by simp
      have hgoal : (q ++ [a]) ++ b :: suf = q ++ a :: b :: suf := by simp
      rw [hprog, hgoal]
      rcases List.eq_nil_or_concat' q with rfl | ⟨q1, c, rfl⟩
      · -- the index is 0
        simp only [List.length_nil, Nat.zero_add] at hlen
        subst hlen
        rcases iteration_step text [] a b suf hsealed with ⟨_, h⟩ | ⟨_, h⟩ <;>
          · simp only [List.length_nil] at h
            simp only [scanFrom, h]
            simp
      · simp only [List.length_append, List.length_singleton] at hlen
        subst hlen
        rcases iteration_step text (q1 ++ [c]) a b suf hsealed with ⟨ha, h⟩ | ⟨ha, h⟩
        · simp only [List.length_append, List.length_singleton] at h
          simp only [scanFrom, h]
          have hs : Sealed text a (b :: suf) := by
            unfold Sealed
            exact substitute_cons_of_ne text a _ ha
          have hs2 : substitute text (a :: b :: suf) = a :: substitute text (b :: suf) := hs
          have := ih (q1.length + 1) (by omega) (q1 ++ [c]) a (b :: suf) (by simp) hs
          rw [hs2]
          exact this
        · simp only [List.length_append, List.length_singleton] at h
          simp only [scanFrom, h]
          subst ha
          have hs : Sealed text c ('%' :: b :: suf) := sealed_percent text htext c _
          have := ih q1.length (by omega) q1 c ('%' :: b :: suf) rfl hs
          simpa using this

theorem specifierText_percent (host : Host) (torrent : Torrent) :
    specifierText host torrent '%' = none := by
  simp [specifierText]

theorem renderProgram_eq (host : Host) (torrent : Torrent) (autoRunProgram : QString) :
    renderProgram host torrent autoRunProgram
      = some (substitute (specifierText host torrent) (trimmed autoRunProgram)) := by
  unfold renderProgram
  rcases List.eq_nil_or_concat' (trimmed autoRunProgram) with h | ⟨p, b, h⟩
  · rw [h]
    rfl
  · rw [h]
    have hs : Sealed (specifierText host torrent) b [] := by
      simp [Sealed, substitute]
    have := scanFrom_substitute (specifierText host torrent)
      (specifierText_percent host torrent) p.length p b [] rfl hs
    simpa [substitute] using this

theorem specifierText_not_space (host : Host) (torrent : Torrent) (c : Char) (t : QString)
    (h : specifierText host torrent c = some t) : isSpace c = false := by
  by_cases hC : c = 'C'
  · subst hC; decide
  by_cases hD : c = 'D'
  · subst hD; decide
  by_cases hF : c = 'F'
  · subst hF; decide
  by_cases hG : c = 'G'
  · subst hG; decide
  by_cases hI : c = 'I'
  · subst hI; decide
  by_cases hJ : c = 'J'
  · subst hJ; decide
  by_cases hK : c = 'K'
  · subst hK; decide
  by_cases hL : c = 'L'
  · subst hL; decide
  by_cases hN : c = 'N'
  · subst hN; decide
  by_cases hR : c = 'R'
  · subst hR; decide
  by_cases hT : c = 'T'
  · subst hT; decide
  by_cases hZ : c = 'Z'
  · subst hZ; decide
  unfold specifierText at h
  rw [if_neg hC, if_neg hD, if_neg hF, if_neg hG, if_neg hI, if_neg hJ, if_neg hK, if_neg hL, if_neg hN, if_neg hR, if_neg hT, if_neg hZ] at h
  exact absurd h (by simp)

theorem trimmed_of_no_space (s : QString) (h : ∀ c ∈ s, isSpace c = false) :
    trimmed s = s := by
  have hd : ∀ l : QString, (∀ c ∈ l, isSpace c = false) → l.dropWhile isSpace = l := by
    intro l hl
    cases l with
    | nil => rfl
    | cons a l => exact List.dropWhile_cons_of_neg (by simp [hl a (List.mem_cons_self a l)])
  unfold trimmed trimRight
  rw [hd s h, hd s.reverse (fun c hc => h c (List.mem_reverse.mp hc)), List.reverse_reverse]

theorem trimmed_of_all_space (s : QString) (h : ∀ c ∈ s, isSpace c = true) :
    trimmed s = [] := by
  unfold trimmed trimRight
  have : s.dropWhile isSpace = [] := List.dropWhile_eq_nil_iff.mpr h
  rw [this]
  rfl

theorem specifierText_isSome (host : Host) (torrent : Torrent) (c : Char) :
    (specifierText host torrent c).isSome = isSpecifier c := by
  by_cases hC : c = 'C'
  · subst hC; rfl
  by_cases hD : c = 'D'
  · subst hD; rfl
  by_cases hF : c = 'F'
  · subst hF; rfl
  by_cases hG : c = 'G'
  · subst hG; rfl
  by_cases hI : c = 'I'
  · subst hI; rfl
  by_cases hJ : c = 'J'
  · subst hJ; rfl
  by_cases hK : c = 'K'
  · subst hK; rfl
  by_cases hL : c = 'L'
  · subst hL; rfl
  by_cases hN : c = 'N'
  · subst hN; rfl
  by_cases hR : c = 'R'
  · subst hR; rfl
  by_cases hT : c = 'T'
  · subst hT; rfl
  by_cases hZ : c = 'Z'
  · subst hZ; rfl
  unfold specifierText
  rw [if_neg hC, if_neg hD, if_neg hF, if_neg hG, if_neg hI, if_neg hJ, if_neg hK, if_neg hL, if_neg hN, if_neg hR, if_neg hT, if_neg hZ]
  simp [isSpecifier, hC, hD, hF, hG, hI, hJ, hK, hL, hN, hR, hT, hZ]

theorem specifierText_eq_attributeText (host : Host) (torrent : Torrent) (c : Char) :
    specifierText host torrent c = attributeText host torrent c := by
  by_cases hC : c = 'C'
  · subst hC; rfl
  by_cases hD : c = 'D'
  · subst hD; rfl
  by_cases hF : c = 'F'
  · subst hF; rfl
  by_cases hG : c = 'G'
  · subst hG; rfl
  by_cases hI : c = 'I'
  · subst hI; rfl
  by_cases hJ : c = 'J'
  · subst hJ; rfl
  by_cases hK : c = 'K'
  · subst hK; rfl
  by_cases hL : c = 'L'
  · subst hL; rfl
  by_cases hN : c = 'N'
  · subst hN; rfl
  by_cases hR : c = 'R'
  · subst hR; rfl
  by_cases hT : c = 'T'
  · subst hT; rfl
  by_cases hZ : c = 'Z'
  · subst hZ; rfl
  unfold specifierText
  rw [if_neg hC, if_neg hD, if_neg hF, if_neg hG, if_neg hI, if_neg hJ, if_neg hK, if_neg hL, if_neg hN, if_neg hR, if_neg hT, if_neg hZ]
  have eC : (c == 'C') = false := beq_eq_false_iff_ne.mpr hC
  have eD : (c == 'D') = false := beq_eq_false_iff_ne.mpr hD
  have eF : (c == 'F') = false := beq_eq_false_iff_ne.mpr hF
  have eG : (c == 'G') = false := beq_eq_false_iff_ne.mpr hG
  have eI : (c == 'I') = false := beq_eq_false_iff_ne.mpr hI
  have eJ : (c == 'J') = false := beq_eq_false_iff_ne.mpr hJ
  have eK : (c == 'K') = false := beq_eq_false_iff_ne.mpr hK
  have eL : (c == 'L') = false := beq_eq_false_iff_ne.mpr hL
  have eN : (c == 'N') = false := beq_eq_false_iff_ne.mpr hN
  have eR : (c == 'R') = false := beq_eq_false_iff_ne.mpr hR
  have eT : (c == 'T') = false := beq_eq_false_iff_ne.mpr hT
  have eZ : (c == 'Z') = false := beq_eq_false_iff_ne.mpr hZ
  simp only [attributeText, attributeTable, List.lookup, eC, eD, eF, eG, eI, eJ, eK, eL, eN, eR, eT, eZ]

theorem chopPathSep_backslash (str : QString) :
    chopPathSep (str ++ [Char.ofNat 92]) = str := by
  simp [chopPathSep]

theorem chopPathSep_other (str : QString) (h : str.getLast? ≠ some (Char.ofNat 92)) :
    chopPathSep str = str := by
  simp [chopPathSep, h]

/-! ## Properties of the external program invoker -/

/-- C11: the command rendered by `runExternalProgram` is the trimmed template
with all directives replaced at once.  Read from the left, a percent sign
followed by one of the letters `C D F G I J K L N R T Z` gives the text of
the attribute and the reading goes on after the letter, so the inserted text
is never scanned; every other character, a percent sign before any other
character included, stays as it is.  The template `%N-%Z` with the name `foo`
and the size 1024 gives `foo-1024`, `%Q` gives `%Q`, and a name `%Z` inserted
for `%N` is not expanded.  The text that each letter gives is that of the
table of the specification: `C` the file count, `D`, `F` and `R` the save,
content and root paths in native form (without a trailing backslash on
Windows), `G` the tags joined by commas, `I` and `J` the info hashes or `-`,
`K` the identifier, `L` the category, `N` the name, `T` the current tracker
and `Z` the total size, numbers being in decimal. -/
theorem renderProgram_is_simultaneous_substitution (host : Host) (torrent : Torrent)
    (autoRunProgram : QString) :
    renderProgram host torrent autoRunProgram
        = some (substitute (specifierText host torrent) (trimmed autoRunProgram))
    ∧ substitute (specifierText host torrent) [] = []
    ∧ (∀ a, substitute (specifierText host torrent) [a] = [a])
    ∧ (∀ a s, a ≠ '%' →
        substitute (specifierText host torrent) (a :: s)
          = a :: substitute (specifierText host torrent) s)
    ∧ (∀ b s t, specifierText host torrent b = some t →
        substitute (specifierText host torrent) ('%' :: b :: s)
          = t ++ substitute (specifierText host torrent) s)
    ∧ (∀ b s, specifierText host torrent b = none →
        substitute (specifierText host torrent) ('%' :: b :: s)
          = '%' :: substitute (specifierText host torrent) (b :: s))
    ∧ (∀ c, (specifierText host torrent c).isSome = isSpecifier c)
    ∧ renderProgram host { torrent with name := "foo".toList, totalSize := 1024 }
        "%N-%Z".toList = some "foo-1024".toList
    ∧ renderProgram host torrent "%Q".toList = some "%Q".toList
    ∧ renderProgram host { torrent with name := "%Z".toList } "%N".toList
        = some "%Z".toList
    ∧ renderProgram host torrent autoRunProgram
        = some (substitute (attributeText host torrent) (trimmed autoRunProgram))
    ∧ (∀ c, specifierText host torrent c = attributeText host torrent c)
    ∧ specifierText host torrent 'C' = some (number torrent.filesCount)
    ∧ specifierText host torrent 'D'
        = some (if host.windows then chopPathSep (host.toNativePath torrent.savePath)
                else host.toNativePath torrent.savePath)
    ∧ specifierText host torrent 'F'
        = some (if host.windows then chopPathSep (host.toNativePath torrent.contentPath)
                else host.toNativePath torrent.contentPath)
    ∧ specifierText host torrent 'G' = some (join torrent.tags ',')
    ∧ specifierText host torrent 'I' = some (torrent.infoHashV1.getD "-".toList)
    ∧ specifierText host torrent 'J' = some (torrent.infoHashV2.getD "-".toList)
    ∧ specifierText host torrent 'K' = some torrent.id
    ∧ specifierText host torrent 'L' = some torrent.category
    ∧ specifierText host torrent 'N' = some torrent.name
    ∧ specifierText host torrent 'R'
        = some (if host.windows then chopPathSep (host.toNativePath torrent.rootPath)
                else host.toNativePath torrent.rootPath)
    ∧ specifierText host torrent 'T' = some torrent.currentTracker
    ∧ specifierText host torrent 'Z' = some (number torrent.totalSize)
    ∧ (∀ str, chopPathSep (str ++ [Char.ofNat 92]) = str)
    ∧ (∀ str, str.getLast? ≠ some (Char.ofNat 92) → chopPathSep str = str)
    ∧ number 0 = "0".toList
    ∧ number 1024 = "1024".toList
    ∧ number (-17) = "-17".toList
    ∧ join ["a".toList, "b c".toList] ',' = "a,b c".toList := by
  have htext : specifierText host torrent = attributeText host torrent :=
    funext (specifierText_eq_attributeText host torrent)
  refine ⟨renderProgram_eq host torrent autoRunProgram, rfl, fun a => rfl,
    fun a s h => substitute_cons_of_ne _ a s h,
    fun b s t h => substitute_directive _ b s t h,
    fun b s h => substitute_lone_percent _ b s h,
    specifierText_isSome host torrent, ?_, ?_, ?_,
    by rw [← htext]; exact renderProgram_eq host torrent autoRunProgram,
    specifierText_eq_attributeText host torrent,
    rfl, rfl, rfl, rfl, rfl, rfl, rfl, rfl, rfl, rfl, rfl, rfl,
    chopPathSep_backslash, chopPathSep_other,
    by decide, by decide, by decide, by decide⟩
  · have ht : trimmed "%N-%Z".toList = '%' :: 'N' :: '-' :: '%' :: 'Z' :: [] := by decide
    have hN : specifierText host { torrent with name := "foo".toList, totalSize := 1024 } 'N'
        = some "foo".toList := by simp [specifierText]
    have hZ : specifierText host { torrent with name := "foo".toList, totalSize := 1024 } 'Z'
        = some (number 1024) := by simp [specifierText]
    rw [renderProgram_eq, ht, substitute_directive _ 'N' _ _ hN,
      substitute_cons_of_ne _ '-' _ (by decide), substitute_directive _ 'Z' _ _ hZ]
    have he : substitute
        (specifierText host { torrent with name := "foo".toList, totalSize := 1024 }) []
        = [] := rfl
    rw [he]
    decide
  · have ht : trimmed "%Q".toList = '%' :: 'Q' :: [] := by decide
    have hQ : specifierText host torrent 'Q' = none := by simp [specifierText]
    rw [renderProgram_eq, ht, substitute_lone_percent _ 'Q' _ hQ]
    rfl
  · have ht : trimmed "%N".toList = '%' :: 'N' :: [] := by decide
    have hN : specifierText host { torrent with name := "%Z".toList } 'N'
        = some "%Z".toList := by simp [specifierText]
    rw [renderProgram_eq, ht, substitute_directive _ 'N' _ _ hN]
    have he : substitute (specifierText host { torrent with name := "%Z".toList }) []
        = [] := rfl
    rw [he]
    rfl

theorem renderProgram_is_simultaneous_substitution_witness :
    ('-' ≠ '%'
      ∧ substitute (specifierText plainHost { name := "foo".toList }) ('-' :: "%N".toList)
        = '-' :: substitute (specifierText plainHost { name := "foo".toList }) "%N".toList)
    ∧ (specifierText plainHost { name := "foo".toList } 'N' = some "foo".toList
      ∧ substitute (specifierText plainHost { name := "foo".toList }) ('%' :: 'N' :: "-".toList)
        = "foo".toList
          ++ substitute (specifierText plainHost { name := "foo".toList }) "-".toList)
    ∧ (specifierText plainHost { name := "foo".toList } 'Q' = none
      ∧ substitute (specifierText plainHost { name := "foo".toList }) ('%' :: 'Q' :: [])
        = '%' :: substitute (specifierText plainHost { name := "foo".toList }) ('Q' :: []))
    ∧ ("dir".toList.getLast? ≠ some (Char.ofNat 92)
      ∧ chopPathSep "dir".toList = "dir".toList) :=
  ⟨⟨by decide,
      (renderProgram_is_simultaneous_substitution plainHost { name := "foo".toList }
        []).2.2.2.1 '-' "%N".toList (by decide)⟩,
    ⟨by decide,
      (renderProgram_is_simultaneous_substitution plainHost { name := "foo".toList }
        []).2.2.2.2.1 'N' "-".toList "foo".toList (by decide)⟩,
    ⟨by decide,
      (renderProgram_is_simultaneous_substitution plainHost { name := "foo".toList }
        []).2.2.2.2.2.1 'Q' [] (by decide)⟩,
    ⟨by decide,
      (renderProgram_is_simultaneous_substitution plainHost { name := "foo".toList }
        []).2.2.2.2.2.2.2.2.2.2.2.2.2.2.2.2.2.2.2.2.2.2.2.2.2.1
        "dir".toList (by decide)⟩⟩

/-- C12, as the code behaves: a doubled percent is not an escape.  With the
name `foo` the template `%%N` renders `%foo`, not the literal text `%N`: the
second percent sign, although another one stands before it, starts the
directive `%N`. -/
theorem doubled_percent_is_not_an_escape :
    renderProgram plainHost { name := "foo".toList } "%%N".toList = some "%foo".toList
    ∧ renderProgram plainHost { name := "foo".toList } "%%N".toList
        ≠ some "%N".toList := by
  decide

/-- C12, amended: for every torrent, two percent signs followed by a specifier
letter render as one percent sign followed by the text of that attribute, so
`%%N` renders as `%` followed by the name.  The first percent sign stays and
is not read together with the inserted text, whatever that text starts
with. -/
theorem doubled_percent_keeps_one_percent (host : Host) (torrent : Torrent) (c : Char)
    (t : QString) (h : specifierText host torrent c = some t) :
    renderProgram host torrent ('%' :: '%' :: c :: []) = some ('%' :: t) := by
  have hc : isSpace c = false := specifierText_not_space host torrent c t h
  have ht : trimmed ('%' :: '%' :: c :: []) = '%' :: '%' :: c :: [] := by
    apply trimmed_of_no_space
    intro x hx
    simp only [List.mem_cons, List.mem_singleton, List.not_mem_nil, or_false] at hx
    rcases hx with rfl | rfl | rfl
    · decide
    · decide
    · exact hc
  rw [renderProgram_eq, ht,
    substitute_lone_percent _ '%' _ (specifierText_percent host torrent),
    substitute_directive _ c [] t h]
  simp [substitute]

theorem doubled_percent_keeps_one_percent_witness :
    specifierText plainHost { name := "Dog".toList, savePath := "/srv".toList } 'N'
        = some "Dog".toList
    ∧ renderProgram plainHost { name := "Dog".toList, savePath := "/srv".toList }
        ('%' :: '%' :: 'N' :: []) = some ('%' :: "Dog".toList) :=
  ⟨by decide,
    doubled_percent_keeps_one_percent plainHost
      { name := "Dog".toList, savePath := "/srv".toList } 'N' "Dog".toList (by decide)⟩

/-- C13: where `Q_OS_WIN` is not defined the rendered command is not given to a
shell.  It is split into an argument vector; when the vector is not empty
exactly one `startDetached` call is made, whose program is the first element
and whose arguments are the other elements in order; when the vector is
empty, as for an empty template or one made of white space, no call is
made. -/
theorem runExternalProgram_launches_argument_vector (host : Host) (torrent : Torrent)
    (autoRunProgram : QString) (_hw : host.windows = false) :
    runExternalProgram host torrent autoRunProgram
        = some (match splitCommand
              (substitute (specifierText host torrent) (trimmed autoRunProgram)) with
            | [] => []
            | command :: args => [ProcessCall.startDetached command args])
    ∧ (∀ calls, runExternalProgram host torrent autoRunProgram = some calls →
        calls.length ≤ 1)
    ∧ ((∀ c ∈ autoRunProgram, isSpace c = true) →
        runExternalProgram host torrent autoRunProgram = some []) := by
  have hrun : runExternalProgram host torrent autoRunProgram
      = some (launch (substitute (specifierText host torrent) (trimmed autoRunProgram))) := by
    unfold runExternalProgram
    rw [renderProgram_eq]
    rfl
  refine ⟨?_, ?_, ?_⟩
  · rw [hrun]
    rfl
  · intro calls hcalls
    rw [hrun] at hcalls
    cases hcalls
    unfold launch
    cases splitCommand (substitute (specifierText host torrent) (trimmed autoRunProgram)) with
    | nil => simp
    | cons command args => simp
  · intro hall
    rw [hrun, trimmed_of_all_space autoRunProgram hall]
    rfl

theorem runExternalProgram_launches_argument_vector_witness :
    plainHost.windows = false
    ∧ (∀ c ∈ "  ".toList, isSpace c = true)
    ∧ runExternalProgram plainHost {} "  ".toList = some []
    ∧ runExternalProgram plainHost { name := "a;b".toList } " sh %N  x ".toList
        = some (match splitCommand
              (substitute (specifierText plainHost { name := "a;b".toList })
                (trimmed " sh %N  x ".toList)) with
            | [] => []
            | command :: args => [ProcessCall.startDetached command args])
    ∧ runExternalProgram plainHost { name := "a;b".toList } " sh %N  x ".toList
        = some [ProcessCall.startDetached "sh".toList
                  ["a;b".toList, "x".toList]] :=
  ⟨rfl, by decide,
    (runExternalProgram_launches_argument_vector plainHost {} "  ".toList rfl).2.2
      (by decide),
    (runExternalProgram_launches_argument_vector plainHost { name := "a;b".toList }
      " sh %N  x ".toList rfl).1,
    by decide⟩

/-! ## The handler of `allTorrentsFinished` -/

theorem haveAction_eq_false_iff (pref : Preferences) :
    haveAction pref = false ↔ enabledActions pref = [] := by
  obtain ⟨a, b, c, d, e⟩ := pref
  cases a <;> cases b <;> cases c <;> cases d <;> simp [haveAction, enabledActions]

theorem resolveAction_mem (pref : Preferences) (h : enabledActions pref ≠ []) :
    resolveAction pref ∈ enabledActions pref := by
  obtain ⟨a, b, c, d, e⟩ := pref
  cases a <;> cases b <;> cases c <;> cases d <;>
    simp [resolveAction, enabledActions] at h ⊢

theorem resolveAction_max (pref : Preferences) :
    ∀ a ∈ enabledActions pref, priority a ≤ priority (resolveAction pref) := by
  obtain ⟨a, b, c, d, e⟩ := pref
  cases a <;> cases b <;> cases c <;> cases d <;>
    simp [resolveAction, enabledActions, priority]

theorem allTorrentsFinished_effects (gui confirmed : Bool) (st : ShutdownState) :
    ∀ e ∈ (allTorrentsFinished gui confirmed st).2,
      e = ShutdownEffect.askForConfirmation (resolveAction st.pref)
      ∨ e = ShutdownEffect.setShutdownAct (resolveAction st.pref)
      ∨ e = ShutdownEffect.exit := by
  intro e he
  by_cases h1 : haveAction st.pref = true <;>
    by_cases h3 : resolveAction st.pref = ShutdownDialogAction.Exit <;>
    by_cases h4 : asksConfirmation gui st.pref = true <;>
    cases confirmed <;>
    simp [allTorrentsFinished, h1, h3, h4] at he <;>
    first
      | (rcases he with he | he | he <;> simp [he, h3])
      | (rcases he with he | he <;> simp [he, h3])
      | simp [he, h3]

theorem allTorrentsFinished_m_shutdownAct (gui confirmed : Bool) (st : ShutdownState) :
    (allTorrentsFinished gui confirmed st).1.m_shutdownAct = st.m_shutdownAct
    ∨ (allTorrentsFinished gui confirmed st).1.m_shutdownAct = resolveAction st.pref := by
  by_cases h1 : haveAction st.pref = true <;>
    by_cases h3 : resolveAction st.pref = ShutdownDialogAction.Exit <;>
    by_cases h4 : asksConfirmation gui st.pref = true <;>
    cases confirmed <;>
    simp [allTorrentsFinished, h1, h3, h4]

theorem allTorrentsFinished_of_quiet (gui confirmed : Bool) (st : ShutdownState)
    (hq : Quiet st.pref) :
    (allTorrentsFinished gui confirmed st).1 = st
    ∧ assignments (allTorrentsFinished gui confirmed st).2 = [] := by
  obtain ⟨h1, h2, h3⟩ := hq
  have hr : resolveAction st.pref = ShutdownDialogAction.Exit := by
    simp [resolveAction, h1, h2, h3]
  by_cases hh : haveAction st.pref = true <;>
    by_cases h4 : asksConfirmation gui st.pref = true <;>
    cases confirmed <;>
    simp [allTorrentsFinished, assignments, hh, hr, h4]

theorem allTorrentsFinished_step (gui confirmed : Bool) (st : ShutdownState) :
    ((allTorrentsFinished gui confirmed st).1 = st
      ∧ assignments (allTorrentsFinished gui confirmed st).2 = [])
    ∨ (assignments (allTorrentsFinished gui confirmed st).2 = [resolveAction st.pref]
      ∧ (allTorrentsFinished gui confirmed st).1.m_shutdownAct = resolveAction st.pref
      ∧ Quiet (allTorrentsFinished gui confirmed st).1.pref) := by
  by_cases hh : haveAction st.pref = true <;>
    by_cases h3 : resolveAction st.pref = ShutdownDialogAction.Exit <;>
    by_cases h4 : asksConfirmation gui st.pref = true <;>
    cases confirmed <;>
    simp [allTorrentsFinished, assignments, Quiet, hh, h3, h4]

theorem assignments_append (l1 l2 : List ShutdownEffect) :
    assignments (l1 ++ l2) = assignments l1 ++ assignments l2 := by
  simp [assignments, List.filterMap_append]

theorem finishedRun_of_quiet (gui : Bool) (answers : List Bool) (st : ShutdownState)
    (hq : Quiet st.pref) :
    (finishedRun gui st answers).1 = st ∧ assignments (finishedRun gui st answers).2 = [] := by
  induction answers with
  | nil => exact ⟨rfl, rfl⟩
  | cons c later ih =>
    obtain ⟨h1, h2⟩ := allTorrentsFinished_of_quiet gui c st hq
    simp only [finishedRun, h1, assignments_append, h2, List.nil_append]
    exact ih

theorem finishedRun_cases (gui : Bool) (answers : List Bool) (st : ShutdownState) :
    ((finishedRun gui st answers).1.m_shutdownAct = st.m_shutdownAct
      ∧ assignments (finishedRun gui st answers).2 = [])
    ∨ (∃ a, assignments (finishedRun gui st answers).2 = [a]
      ∧ (finishedRun gui st answers).1.m_shutdownAct = a
      ∧ Quiet (finishedRun gui st answers).1.pref) := by
  induction answers generalizing st with
  | nil => exact Or.inl ⟨rfl, rfl⟩
  | cons c later ih =>
    simp only [finishedRun, assignments_append]
    rcases allTorrentsFinished_step gui c st with ⟨h1, h2⟩ | ⟨h1, h2, h3⟩
    · rw [h1, h2]
      simpa using ih st
    · obtain ⟨k1, k2⟩ := finishedRun_of_quiet gui later _ h3
      right
      refine ⟨resolveAction st.pref, ?_, ?_, ?_⟩
      · rw [h1, k2]
        rfl
      · rw [k1, h2]
      · rw [k1]
        exact h3

theorem finishedRun_append (gui : Bool) (earlier later : List Bool) (st : ShutdownState) :
    finishedRun gui st (earlier ++ later)
      = ((finishedRun gui (finishedRun gui st earlier).1 later).1,
          (finishedRun gui st earlier).2
            ++ (finishedRun gui (finishedRun gui st earlier).1 later).2) := by
  induction earlier generalizing st with
  | nil => simp [finishedRun]
  | cons c rest ih =>
    have hstep : finishedRun gui st (c :: (rest ++ later))
        = ((finishedRun gui (allTorrentsFinished gui c st).1 (rest ++ later)).1,
            (allTorrentsFinished gui c st).2
              ++ (finishedRun gui (allTorrentsFinished gui c st).1 (rest ++ later)).2) := rfl
    rw [List.cons_append, hstep, ih]
    simp only [finishedRun, List.append_assoc]

/-! ## Properties of the shutdown arbiter -/

/-- C14: shutdown action resolution.  When none of the four preferences is set
`allTorrentsFinished` does nothing: no preference changes, `m_shutdownAct`
stays, no confirmation is asked and `exit` is not called.  Otherwise, for
every combination of the four preferences, the action it resolves is an
enabled one and no enabled action ranks above it in the order Suspend,
Hibernate, Shutdown, Exit, and every effect of the handler bears that action.
With suspend and hibernate both set the action is Suspend. -/
theorem allTorrentsFinished_resolves_by_priority (gui confirmed : Bool)
    (st : ShutdownState) :
    (st.pref.shutdownqBTWhenDownloadsComplete = false →
      st.pref.shutdownWhenDownloadsComplete = false →
      st.pref.suspendWhenDownloadsComplete = false →
      st.pref.hibernateWhenDownloadsComplete = false →
        allTorrentsFinished gui confirmed st = (st, []))
    ∧ (enabledActions st.pref ≠ [] →
        resolveAction st.pref ∈ enabledActions st.pref
        ∧ (∀ a ∈ enabledActions st.pref, priority a ≤ priority (resolveAction st.pref))
        ∧ (∀ e ∈ (allTorrentsFinished gui confirmed st).2,
            e = ShutdownEffect.askForConfirmation (resolveAction st.pref)
            ∨ e = ShutdownEffect.setShutdownAct (resolveAction st.pref)
            ∨ e = ShutdownEffect.exit)
        ∧ ((allTorrentsFinished gui confirmed st).1.m_shutdownAct = st.m_shutdownAct
            ∨ (allTorrentsFinished gui confirmed st).1.m_shutdownAct
                = resolveAction st.pref))
    ∧ (st.pref.suspendWhenDownloadsComplete = true →
        st.pref.hibernateWhenDownloadsComplete = true →
          resolveAction st.pref = ShutdownDialogAction.Suspend) := by
  refine ⟨?_, ?_, ?_⟩
  · intro h1 h2 h3 h4
    simp [allTorrentsFinished, haveAction, h1, h2, h3, h4]
  · intro h
    exact ⟨resolveAction_mem st.pref h, resolveAction_max st.pref,
      allTorrentsFinished_effects gui confirmed st,
      allTorrentsFinished_m_shutdownAct gui confirmed st⟩
  · intro h1 _
    simp [resolveAction, h1]

theorem allTorrentsFinished_resolves_by_priority_witness :
    (enabledActions
        { shutdownqBTWhenDownloadsComplete := true, suspendWhenDownloadsComplete := true,
          hibernateWhenDownloadsComplete := true } ≠ []
      ∧ resolveAction
          { shutdownqBTWhenDownloadsComplete := true, suspendWhenDownloadsComplete := true,
            hibernateWhenDownloadsComplete := true }
        ∈ enabledActions
          { shutdownqBTWhenDownloadsComplete := true, suspendWhenDownloadsComplete := true,
            hibernateWhenDownloadsComplete := true })
    ∧ (({} : Preferences).shutdownqBTWhenDownloadsComplete = false
      ∧ ({} : Preferences).shutdownWhenDownloadsComplete = false
      ∧ ({} : Preferences).suspendWhenDownloadsComplete = false
      ∧ ({} : Preferences).hibernateWhenDownloadsComplete = false
      ∧ allTorrentsFinished true true {} = ({}, []))
    ∧ resolveAction
        { shutdownqBTWhenDownloadsComplete := true, suspendWhenDownloadsComplete := true,
          hibernateWhenDownloadsComplete := true } = ShutdownDialogAction.Suspend :=
  ⟨⟨by decide,
      ((allTorrentsFinished_resolves_by_priority true true
        { pref := { shutdownqBTWhenDownloadsComplete := true,
                    suspendWhenDownloadsComplete := true,
                    hibernateWhenDownloadsComplete := true } }).2.1 (by decide)).1⟩,
    ⟨rfl, rfl, rfl, rfl,
      (allTorrentsFinished_resolves_by_priority true true {}).1 rfl rfl rfl rfl⟩,
    (allTorrentsFinished_resolves_by_priority true true
      { pref := { shutdownqBTWhenDownloadsComplete := true,
                  suspendWhenDownloadsComplete := true,
                  hibernateWhenDownloadsComplete := true } }).2.2 rfl rfl⟩

/-- C15: in a GUI build the confirmation can be skipped only for Exit.  When
some preference is set, the handler asks for confirmation unless the action
is Exit and `dontConfirmAutoExit` is set, so it always asks for Shutdown,
Suspend and Hibernate; and when the confirmation is declined nothing else
happens: no preference changes, `m_shutdownAct` stays and `exit` is not
called. -/
theorem confirmation_skipped_only_for_exit (confirmed : Bool) (st : ShutdownState)
    (hact : enabledActions st.pref ≠ []) :
    (ShutdownEffect.askForConfirmation (resolveAction st.pref)
        ∈ (allTorrentsFinished true confirmed st).2
      ↔ ¬ (resolveAction st.pref = ShutdownDialogAction.Exit
            ∧ st.pref.dontConfirmAutoExit = true))
    ∧ (resolveAction st.pref ≠ ShutdownDialogAction.Exit →
        ShutdownEffect.askForConfirmation (resolveAction st.pref)
          ∈ (allTorrentsFinished true confirmed st).2)
    ∧ (ShutdownEffect.askForConfirmation (resolveAction st.pref)
          ∈ (allTorrentsFinished true confirmed st).2 →
        confirmed = false →
        allTorrentsFinished true confirmed st
          = (st, [ShutdownEffect.askForConfirmation (resolveAction st.pref)])) := by
  have hh : haveAction st.pref = true := by
    cases h : haveAction st.pref with
    | true => rfl
    | false => exact absurd ((haveAction_eq_false_iff st.pref).mp h) hact
  by_cases h3 : resolveAction st.pref = ShutdownDialogAction.Exit <;>
    cases hd : st.pref.dontConfirmAutoExit <;>
    cases confirmed <;>
    simp [allTorrentsFinished, asksConfirmation, hh, h3, hd]

theorem confirmation_skipped_only_for_exit_witness :
    enabledActions
        { shutdownWhenDownloadsComplete := true, dontConfirmAutoExit := true } ≠ []
    ∧ resolveAction { shutdownWhenDownloadsComplete := true, dontConfirmAutoExit := true }
        ≠ ShutdownDialogAction.Exit
    ∧ ShutdownEffect.askForConfirmation
          (resolveAction { shutdownWhenDownloadsComplete := true, dontConfirmAutoExit := true })
        ∈ (allTorrentsFinished true false
            { pref := { shutdownWhenDownloadsComplete := true,
                        dontConfirmAutoExit := true } }).2
    ∧ allTorrentsFinished true false
          { pref := { shutdownWhenDownloadsComplete := true, dontConfirmAutoExit := true } }
        = ({ pref := { shutdownWhenDownloadsComplete := true, dontConfirmAutoExit := true } },
            [ShutdownEffect.askForConfirmation
              (resolveAction
                { shutdownWhenDownloadsComplete := true, dontConfirmAutoExit := true })]) :=
  ⟨by decide, by decide,
    (confirmation_skipped_only_for_exit false
      { pref := { shutdownWhenDownloadsComplete := true, dontConfirmAutoExit := true } }
      (by decide)).2.1 (by decide),
    (confirmation_skipped_only_for_exit false
      { pref := { shutdownWhenDownloadsComplete := true, dontConfirmAutoExit := true } }
      (by decide)).2.2 (by decide) rfl⟩

/-- C17: `m_shutdownAct` is assigned at most once.  Start from the value Exit
with any preferences and invoke `allTorrentsFinished` any number of times
with any confirmation answers, the preferences being changed by the handler
only.  Over the whole run there is at most one assignment, the final value is
the assigned one (Exit when there is none), and once an assignment to `a`
has happened the member equals `a` then and after every later invocation. -/
theorem m_shutdownAct_assigned_at_most_once (gui : Bool) (pref : Preferences)
    (earlier later : List Bool) :
    (assignments
        (finishedRun gui { pref := pref, m_shutdownAct := ShutdownDialogAction.Exit }
          (earlier ++ later)).2).length ≤ 1
    ∧ (finishedRun gui { pref := pref, m_shutdownAct := ShutdownDialogAction.Exit }
          (earlier ++ later)).1.m_shutdownAct
        = ((assignments
            (finishedRun gui { pref := pref, m_shutdownAct := ShutdownDialogAction.Exit }
              (earlier ++ later)).2).head?).getD ShutdownDialogAction.Exit
    ∧ (∀ a ∈ assignments
          (finishedRun gui { pref := pref, m_shutdownAct := ShutdownDialogAction.Exit }
            earlier).2,
        (finishedRun gui { pref := pref, m_shutdownAct := ShutdownDialogAction.Exit }
            earlier).1.m_shutdownAct = a
        ∧ (finishedRun gui { pref := pref, m_shutdownAct := ShutdownDialogAction.Exit }
            (earlier ++ later)).1.m_shutdownAct = a) := by
  refine ⟨?_, ?_, ?_⟩
  · rcases finishedRun_cases gui (earlier ++ later)
      { pref := pref, m_shutdownAct := ShutdownDialogAction.Exit } with ⟨_, h⟩ | ⟨a, h, _, _⟩
    · rw [h]; simp
    · rw [h]; simp
  · rcases finishedRun_cases gui (earlier ++ later)
      { pref := pref, m_shutdownAct := ShutdownDialogAction.Exit } with ⟨h1, h⟩ | ⟨a, h, h1, _⟩
    · rw [h, h1]; rfl
    · rw [h, h1]; rfl
  · intro a ha
    rcases finishedRun_cases gui earlier
      { pref := pref, m_shutdownAct := ShutdownDialogAction.Exit } with ⟨_, h⟩ | ⟨b, h, h1, hq⟩
    · rw [h] at ha
      simp at ha
    · rw [h] at ha
      have hab : a = b := by simpa using ha
      subst hab
      refine ⟨h1, ?_⟩
      rw [finishedRun_append]
      rw [(finishedRun_of_quiet gui later _ hq).1]
      exact h1

theorem m_shutdownAct_assigned_at_most_once_witness :
    ShutdownDialogAction.Suspend
        ∈ assignments
          (finishedRun true
            { pref := { suspendWhenDownloadsComplete := true,
                        shutdownqBTWhenDownloadsComplete := true },
              m_shutdownAct := ShutdownDialogAction.Exit } [false, true]).2
    ∧ (finishedRun true
          { pref := { suspendWhenDownloadsComplete := true,
                      shutdownqBTWhenDownloadsComplete := true },
            m_shutdownAct := ShutdownDialogAction.Exit } [false, true]).1.m_shutdownAct
        = ShutdownDialogAction.Suspend
    ∧ (finishedRun true
          { pref := { suspendWhenDownloadsComplete := true,
                      shutdownqBTWhenDownloadsComplete := true },
            m_shutdownAct := ShutdownDialogAction.Exit }
          ([false, true] ++ [true, true])).1.m_shutdownAct
        = ShutdownDialogAction.Suspend :=
  ⟨by decide,
    (m_shutdownAct_assigned_at_most_once true
      { suspendWhenDownloadsComplete := true, shutdownqBTWhenDownloadsComplete := true }
      [false, true] [true, true]).2.2 ShutdownDialogAction.Suspend (by decide)⟩

/-! ## Teardown -/

theorem cleanup_of_done (build : Build) (st : CleanupState) (h : st.alreadyDone = true) :
    cleanup build st = (st, []) := by
  simp [cleanup, h]

theorem cleanup_sets_done (build : Build) (st : CleanupState) :
    (cleanup build st).1.alreadyDone = true := by
  unfold cleanup
  by_cases h : st.alreadyDone = true
  · simp [h]
  · simp [h]

theorem cleanupTimes_of_done (build : Build) (n : Nat) (st : CleanupState)
    (h : st.alreadyDone = true) : cleanupTimes build n st = (st, []) := by
  induction n with
  | zero => rfl
  | succ n ih => simp [cleanupTimes, cleanup_of_done build st h, ih]

/-! ## Properties of the teardown -/

/-- C18: sequential calls of `cleanup` are idempotent.  For every number of
calls from one up, the steps taken by the calls together, and the state they
leave, are those of the first call alone; a call that follows another takes
no step at all, so it frees nothing and does not invoke the power action
again. -/
theorem cleanup_idempotent (build : Build) (st : CleanupState) (n : Nat) :
    (cleanupTimes build (n + 1) st).2 = (cleanup build st).2
    ∧ (cleanupTimes build (n + 1) st).1 = (cleanup build st).1
    ∧ cleanup build (cleanup build st).1 = ((cleanup build st).1, [])
    ∧ (cleanupTimes build n (cleanup build st).1).2 = [] := by
  have hdone := cleanup_sets_done build st
  have hrest := cleanupTimes_of_done build n _ hdone
  refine ⟨?_, ?_, cleanup_of_done build _ hdone, ?_⟩
  · simp [cleanupTimes, hrest]
  · simp [cleanupTimes, hrest]
  · rw [hrest]

/-- C19, as the code behaves: the teardown order is not the reverse of the
startup order.  In a build with GUI and web UI, restricted to the thirteen
subsystems of the constructor and `exec`, `cleanup` frees the web UI first
although it is initialised before the two RSS singletons, the torrent
session before the geo-IP manager, and the icon provider after the logger. -/
theorem teardown_is_not_reverse_of_startup :
    restrictTo coreSubsystems (startupOrder desktopBuild)
      = [Subsystem.Profile, Subsystem.Logger, Subsystem.SettingsStorage,
          Subsystem.Preferences, Subsystem.ProxyConfigurationManager,
          Subsystem.DownloadManager, Subsystem.IconProvider, Subsystem.Session,
          Subsystem.GeoIPManager, Subsystem.TorrentFilesWatcher, Subsystem.WebUI,
          Subsystem.RSSSession, Subsystem.RSSAutoDownloader]
    ∧ restrictTo coreSubsystems
        (freedSubsystems (cleanup desktopBuild { hasWindow := true }).2)
      = [Subsystem.WebUI, Subsystem.RSSAutoDownloader, Subsystem.RSSSession,
          Subsystem.TorrentFilesWatcher, Subsystem.Session, Subsystem.GeoIPManager,
          Subsystem.DownloadManager, Subsystem.ProxyConfigurationManager,
          Subsystem.Preferences, Subsystem.SettingsStorage, Subsystem.Logger,
          Subsystem.IconProvider, Subsystem.Profile]
    ∧ restrictTo coreSubsystems
        (freedSubsystems (cleanup desktopBuild { hasWindow := true }).2)
      ≠ (restrictTo coreSubsystems (startupOrder desktopBuild)).reverse := by
  decide

/-- C19, amended: in the one effective run of `cleanup`, restricted to the
subsystems of the constructor and `exec`, the subsystems are freed in the
order web UI (when the build has one), RSS auto-downloader, RSS session,
torrent-files watcher, torrent session, geo-IP manager, download manager,
proxy configuration manager, preferences, settings storage, logger, icon
provider, profile.  Leaving out the web UI, the geo-IP manager and the icon
provider, this is the reverse of the order of initialisation. -/
theorem teardown_order (build : Build) (st : CleanupState)
    (h : st.alreadyDone = false) :
    restrictTo coreSubsystems (freedSubsystems (cleanup build st).2)
      = (if build.webui then [Subsystem.WebUI] else [])
        ++ [Subsystem.RSSAutoDownloader, Subsystem.RSSSession,
            Subsystem.TorrentFilesWatcher, Subsystem.Session, Subsystem.GeoIPManager,
            Subsystem.DownloadManager, Subsystem.ProxyConfigurationManager,
            Subsystem.Preferences, Subsystem.SettingsStorage, Subsystem.Logger,
            Subsystem.IconProvider, Subsystem.Profile]
    ∧ without outOfOrderSubsystems
        (restrictTo coreSubsystems (freedSubsystems (cleanup build st).2))
      = (without outOfOrderSubsystems
          (restrictTo coreSubsystems (startupOrder build))).reverse := by
  obtain ⟨gui, webui, windows⟩ := build
  obtain ⟨done, win, act⟩ := st
  simp only at h
  subst h
  cases gui <;> cases webui <;> cases windows <;> cases win <;> cases act <;> decide

theorem teardown_order_witness :
    ({ hasWindow := true, m_shutdownAct := ShutdownDialogAction.Suspend }
        : CleanupState).alreadyDone = false
    ∧ without outOfOrderSubsystems
        (restrictTo coreSubsystems
          (freedSubsystems
            (cleanup desktopBuild
              { hasWindow := true, m_shutdownAct := ShutdownDialogAction.Suspend }).2))
      = (without outOfOrderSubsystems
          (restrictTo coreSubsystems (startupOrder desktopBuild))).reverse :=
  ⟨rfl,
    (teardown_order desktopBuild
      { hasWindow := true, m_shutdownAct := ShutdownDialogAction.Suspend } rfl).2⟩

/-- C20: in the one effective run of `cleanup` the power action
`shutdownComputer` is invoked exactly when `m_shutdownAct` is not Exit, with
`m_shutdownAct` as its argument and once only, and it is the last step: the
free of every singleton, the deletion of the main window, the removal of the
temporary directory and `Profile::freeInstance` all come before it. -/
theorem power_action_is_last (build : Build) (st : CleanupState)
    (h : st.alreadyDone = false) :
    (cleanupSteps build st).filter isPowerAction
        = (if st.m_shutdownAct ≠ ShutdownDialogAction.Exit then
            [CleanupStep.shutdownComputer st.m_shutdownAct]
          else [])
    ∧ (∀ step ∈ (cleanupSteps build st).dropLast, isPowerAction step = false)
    ∧ (st.m_shutdownAct ≠ ShutdownDialogAction.Exit →
        (cleanupSteps build st).getLast?
            = some (CleanupStep.shutdownComputer st.m_shutdownAct)
        ∧ (∀ subsystem ∈ [Subsystem.RSSAutoDownloader, Subsystem.RSSSession,
              Subsystem.TorrentFilesWatcher, Subsystem.Session, Subsystem.GeoIPManager,
              Subsystem.DownloadManager, Subsystem.ProxyConfigurationManager,
              Subsystem.Preferences, Subsystem.SettingsStorage, Subsystem.FileLogger,
              Subsystem.Logger, Subsystem.IconProvider, Subsystem.SearchPluginManager,
              Subsystem.Profile],
            CleanupStep.free subsystem ∈ (cleanupSteps build st).dropLast)
        ∧ CleanupStep.removeTempDir ∈ (cleanupSteps build st).dropLast
        ∧ (build.webui = true →
            CleanupStep.free Subsystem.WebUI ∈ (cleanupSteps build st).dropLast)
        ∧ (build.gui = true → st.hasWindow = true →
            CleanupStep.free Subsystem.MainWindow ∈ (cleanupSteps build st).dropLast
            ∧ CleanupStep.free Subsystem.UIThemeManager
                ∈ (cleanupSteps build st).dropLast)) := by
  obtain ⟨gui, webui, windows⟩ := build
  obtain ⟨done, win, act⟩ := st
  simp only at h
  subst h
  cases gui <;> cases webui <;> cases windows <;> cases win <;> cases act <;> decide

theorem power_action_is_last_witness :
    ({ hasWindow := true, m_shutdownAct := ShutdownDialogAction.Hibernate }
        : CleanupState).alreadyDone = false
    ∧ (cleanupSteps desktopBuild
          { hasWindow := true, m_shutdownAct := ShutdownDialogAction.Hibernate }).filter
        isPowerAction
      = (if ({ hasWindow := true, m_shutdownAct := ShutdownDialogAction.Hibernate }
              : CleanupState).m_shutdownAct ≠ ShutdownDialogAction.Exit then
          [CleanupStep.shutdownComputer
            ({ hasWindow := true, m_shutdownAct := ShutdownDialogAction.Hibernate }
              : CleanupState).m_shutdownAct]
        else []) :=
  ⟨rfl,
    (power_action_is_last desktopBuild
      { hasWindow := true, m_shutdownAct := ShutdownDialogAction.Hibernate } rfl).1⟩

/-! ## Properties of the startup -/

theorem exec_success_initialised (build : Build) (dialogEnabled webuiErrored : Bool)
    (app : Application) (params : QStringList)
    (h : (build.webui && !build.gui && webuiErrored) = false) :
    initialised (exec build dialogEnabled false webuiErrored app params).steps
      = execInitOrder build := by
  obtain ⟨gui, webui, windows⟩ := build
  simp only at h
  simp only [exec, h, Bool.false_eq_true, if_false, initialised, execInitOrder]
  cases gui <;> cases webui <;>
    simp [List.filterMap_append, List.filterMap_map]

/-- C21: a failure of the session start is contained.  When
`Session::initInstance` throws a `RuntimeError`, `exec` returns 1 after the
steps proxy configuration manager, download manager, icon provider and the
report of the error, in this order.  None of the later subsystems is
initialised, `m_running` and the queue are as they were, so `m_running` is
still false, `startUpTorrents` is not called and nothing is dispatched.
Without the failure `exec` initialises every subsystem of its list, sets
`m_running` and goes on to the event loop. -/
theorem exec_failure_is_contained (build : Build) (dialogEnabled webuiErrored : Bool)
    (app : Application) (params : QStringList) :
    (exec build dialogEnabled true webuiErrored app params).returned = some 1
    ∧ (exec build dialogEnabled true webuiErrored app params).steps
        = [ExecStep.init Subsystem.ProxyConfigurationManager,
            ExecStep.init Subsystem.DownloadManager, ExecStep.init Subsystem.IconProvider,
            ExecStep.reportError]
    ∧ (∀ subsystem ∈ [Subsystem.Session, Subsystem.GeoIPManager,
          Subsystem.TorrentFilesWatcher, Subsystem.WebUI, Subsystem.RSSSession,
          Subsystem.RSSAutoDownloader, Subsystem.UIThemeManager, Subsystem.MainWindow],
        subsystem ∉ initialised (exec build dialogEnabled true webuiErrored app params).steps)
    ∧ (exec build dialogEnabled true webuiErrored app params).app = app
    ∧ (exec build dialogEnabled true webuiErrored {} params).app.m_running = false
    ∧ ExecStep.startUpTorrents
        ∉ (exec build dialogEnabled true webuiErrored app params).steps
    ∧ (∀ request, ExecStep.dispatch request
        ∉ (exec build dialogEnabled true webuiErrored app params).steps)
    ∧ ((build.webui && !build.gui && webuiErrored) = false →
        (exec build dialogEnabled false webuiErrored app params).returned = none
        ∧ initialised (exec build dialogEnabled false webuiErrored app params).steps
            = execInitOrder build
        ∧ (exec build dialogEnabled false webuiErrored app params).app.m_running = true
        ∧ ExecStep.startUpTorrents
            ∈ (exec build dialogEnabled false webuiErrored app params).steps) := by
  refine ⟨rfl, rfl, ?_, rfl, rfl, ?_, ?_, ?_⟩
  · simp [exec, initialised]
  · simp [exec]
  · simp [exec]
  · intro h
    refine ⟨?_, exec_success_initialised build dialogEnabled webuiErrored app params h, ?_, ?_⟩
    · simp [exec, h]
    · simp only [exec, h, Bool.false_eq_true, if_false]
      rw [execDrain_state]
    · simp [exec, h]

theorem exec_failure_is_contained_witness :
    (desktopBuild.webui && !desktopBuild.gui && false) = false
    ∧ (exec desktopBuild true false false {} ["a.torrent".toList]).returned = none
    ∧ initialised (exec desktopBuild true false false {} ["a.torrent".toList]).steps
        = execInitOrder desktopBuild
    ∧ (exec desktopBuild true false false {} ["a.torrent".toList]).app.m_running = true
    ∧ ExecStep.startUpTorrents
        ∈ (exec desktopBuild true false false {} ["a.torrent".toList]).steps :=
  ⟨rfl,
    (exec_failure_is_contained desktopBuild true false {} ["a.torrent".toList]).2.2.2.2.2.2.2
      rfl⟩

/-! ## The guard of `cleanup` under interleaving -/

theorem scheduleStep_notStarted_clear (teardown : List CleanupStep) (g : ConcurrentCleanup)
    (i : Nat) (hc : g.callers i = CallerState.notStarted) (hd : g.alreadyDone = false) :
    scheduleStep teardown g i
      = { g with alreadyDone := true,
                 callers := fun j =>
                   if j = i then CallerState.tearingDown teardown else g.callers j } := by
  simp [scheduleStep, hc, hd]

theorem scheduleStep_notStarted_set (teardown : List CleanupStep) (g : ConcurrentCleanup)
    (i : Nat) (hc : g.callers i = CallerState.notStarted) (hd : g.alreadyDone = true) :
    scheduleStep teardown g i
      = { g with callers := fun j => if j = i then CallerState.skipped else g.callers j } := by
  simp [scheduleStep, hc, hd]

theorem scheduleStep_tearingDown_nil (teardown : List CleanupStep) (g : ConcurrentCleanup)
    (i : Nat) (hc : g.callers i = CallerState.tearingDown []) :
    scheduleStep teardown g i = g := by
  simp [scheduleStep, hc]

theorem scheduleStep_tearingDown_cons (teardown : List CleanupStep) (g : ConcurrentCleanup)
    (i : Nat) (step : CleanupStep) (rest : List CleanupStep)
    (hc : g.callers i = CallerState.tearingDown (step :: rest)) :
    scheduleStep teardown g i
      = { g with callers := fun j =>
                   if j = i then CallerState.tearingDown rest else g.callers j,
                 trace := g.trace ++ [(i, step)] } := by
  simp [scheduleStep, hc]

theorem scheduleStep_skipped (teardown : List CleanupStep) (g : ConcurrentCleanup)
    (i : Nat) (hc : g.callers i = CallerState.skipped) :
    scheduleStep teardown g i = g := by
  simp [scheduleStep, hc]

theorem scheduleStep_invariant (teardown : List CleanupStep) (g : ConcurrentCleanup)
    (i : Nat) (h : GuardInvariant teardown g) :
    GuardInvariant teardown (scheduleStep teardown g i) := by
  rcases h with ⟨hd, hall, htrace⟩ | ⟨hd, winner, remaining, hw, hothers, hsteps, hby⟩
  · rw [scheduleStep_notStarted_clear teardown g i (hall i) hd]
    right
    refine ⟨rfl, i, teardown, by simp, ?_, by simp [htrace], by simp [htrace]⟩
    intro j hj
    left
    simp [hj, hall j]
  · by_cases hi : i = winner
    · subst hi
      cases remaining with
      | nil =>
        rw [scheduleStep_tearingDown_nil teardown g i hw]
        exact Or.inr ⟨hd, i, [], hw, hothers, hsteps, hby⟩
      | cons step rest =>
        rw [scheduleStep_tearingDown_cons teardown g i step rest hw]
        right
        refine ⟨hd, i, rest, by simp, ?_, ?_, ?_⟩
        · intro j hj
          simpa [hj] using hothers j hj
        · simpa using hsteps
        · intro p hp
          simp only [List.mem_append, List.mem_singleton] at hp
          rcases hp with hp | hp
          · exact hby p hp
          · rw [hp]
    · rcases hothers i hi with hc | hc
      · rw [scheduleStep_notStarted_set teardown g i hc hd]
        right
        refine ⟨hd, winner, remaining, ?_, ?_, hsteps, hby⟩
        · have hne : ¬ winner = i := fun e => hi e.symm
          simp [hne, hw]
        · intro j hj
          by_cases hji : j = i
          · right
            simp [hji]
          · simpa [hji] using hothers j hj
      · rw [scheduleStep_skipped teardown g i hc]
        exact Or.inr ⟨hd, winner, remaining, hw, hothers, hsteps, hby⟩

theorem runSchedule_invariant (teardown : List CleanupStep) (schedule : List Nat)
    (g : ConcurrentCleanup) (h : GuardInvariant teardown g) :
    GuardInvariant teardown (runSchedule teardown g schedule) := by
  induction schedule generalizing g with
  | nil => exact h
  | cons i rest ih =>
    exact ih (scheduleStep teardown g i) (scheduleStep_invariant teardown g i h)

theorem scheduleStep_started (teardown : List CleanupStep) (g : ConcurrentCleanup)
    (i j : Nat) (h : j = i ∨ g.callers j ≠ CallerState.notStarted) :
    (scheduleStep teardown g i).callers j ≠ CallerState.notStarted := by
  cases hc : g.callers i with
  | notStarted =>
    cases hd : g.alreadyDone with
    | false =>
      rw [scheduleStep_notStarted_clear teardown g i hc hd]
      by_cases hji : j = i
      · simp [hji]
      · rcases h with h | h
        · exact absurd h hji
        · simpa [hji] using h
    | true =>
      rw [scheduleStep_notStarted_set teardown g i hc hd]
      by_cases hji : j = i
      · simp [hji]
      · rcases h with h | h
        · exact absurd h hji
        · simpa [hji] using h
  | tearingDown remaining =>
    have hj : g.callers j ≠ CallerState.notStarted := by
      rcases h with h | h
      · rw [h, hc]
        simp
      · exact h
    cases remaining with
    | nil =>
      rw [scheduleStep_tearingDown_nil teardown g i hc]
      exact hj
    | cons step rest =>
      rw [scheduleStep_tearingDown_cons teardown g i step rest hc]
      by_cases hji : j = i
      · simp [hji]
      · simpa [hji] using hj
  | skipped =>
    have hj : g.callers j ≠ CallerState.notStarted := by
      rcases h with h | h
      · rw [h, hc]
        simp
      · exact h
    rw [scheduleStep_skipped teardown g i hc]
    exact hj

theorem runSchedule_started (teardown : List CleanupStep) (schedule : List Nat)
    (g : ConcurrentCleanup) (j : Nat)
    (h : j ∈ schedule ∨ g.callers j ≠ CallerState.notStarted) :
    (runSchedule teardown g schedule).callers j ≠ CallerState.notStarted := by
  induction schedule generalizing g with
  | nil =>
    rcases h with h | h
    · simp at h
    · exact h
  | cons i rest ih =>
    apply ih (scheduleStep teardown g i)
    rcases h with h | h
    · rcases List.mem_cons.mp h with h1 | h1
      · exact Or.inr (scheduleStep_started teardown g i j (Or.inl h1))
      · exact Or.inl h1
    · exact Or.inr (scheduleStep_started teardown g i j (Or.inr h))

theorem guardInvariant_initial (teardown : List CleanupStep) :
    GuardInvariant teardown {} :=
  Or.inl ⟨rfl, fun _ => rfl, rfl⟩

/-- C22: the guard of `cleanup` lets the first caller win.  Whatever the
number of concurrent calls and whatever the interleaving of their steps, the
test-and-set being one atomic step: at most one call is ever past the guard,
and exactly one as soon as some call has run; every call that has run has
gone through the guard; every step taken is a step of the call past the
guard, so the other calls touch nothing; and the steps taken are a prefix of
the teardown, the whole teardown once the winner is done. -/
theorem cleanup_guard_first_caller_wins (build : Build) (st : CleanupState)
    (schedule : List Nat) :
    (∀ i j, ((concurrentCleanup build st schedule).callers i).passed = true →
        ((concurrentCleanup build st schedule).callers j).passed = true → i = j)
    ∧ (schedule ≠ [] →
        ∃ winner, ((concurrentCleanup build st schedule).callers winner).passed = true)
    ∧ (∀ i ∈ schedule,
        (concurrentCleanup build st schedule).callers i ≠ CallerState.notStarted)
    ∧ (∀ i, ((concurrentCleanup build st schedule).callers i).passed = false →
        ∀ p ∈ (concurrentCleanup build st schedule).trace, p.1 ≠ i)
    ∧ (concurrentCleanup build st schedule).trace.map Prod.snd
        <+: cleanupSteps build { st with alreadyDone := false }
    ∧ (∀ i, (concurrentCleanup build st schedule).callers i = CallerState.tearingDown [] →
        (concurrentCleanup build st schedule).trace.map Prod.snd
          = cleanupSteps build { st with alreadyDone := false }) := by
  have hinv : GuardInvariant (cleanupSteps build { st with alreadyDone := false })
      (concurrentCleanup build st schedule) :=
    runSchedule_invariant _ schedule {} (guardInvariant_initial _)
  have hstarted : ∀ i ∈ schedule,
      (concurrentCleanup build st schedule).callers i ≠ CallerState.notStarted :=
    fun i hi => runSchedule_started _ schedule {} i (Or.inl hi)
  rcases hinv with ⟨_, hall, htrace⟩ | ⟨_, winner, remaining, hw, hothers, hsteps, hby⟩
  · refine ⟨?_, ?_, hstarted, ?_, ?_, ?_⟩
    · intro i j hi
      rw [hall i] at hi
      exact absurd hi (by decide)
    · intro hne
      cases schedule with
      | nil => exact absurd rfl hne
      | cons i rest => exact absurd (hall i) (hstarted i (List.mem_cons_self i rest))
    · intro i _ p hp
      rw [htrace] at hp
      simp at hp
    · rw [htrace]
      exact List.nil_prefix
    · intro i hi
      rw [hall i] at hi
      exact absurd hi (by simp)
  · have hpassed : ∀ i, ((concurrentCleanup build st schedule).callers i).passed = true →
        i = winner := by
      intro i hi
      by_contra hne
      rcases hothers i hne with h | h <;> rw [h] at hi <;> exact absurd hi (by decide)
    refine ⟨?_, ?_, hstarted, ?_, ?_, ?_⟩
    · intro i j hi hj
      rw [hpassed i hi, hpassed j hj]
    · intro _
      exact ⟨winner, by rw [hw]; rfl⟩
    · intro i hi p hp hpi
      rw [← hpi, hby p hp, hw] at hi
      simp [CallerState.passed] at hi
    · exact ⟨remaining, hsteps⟩
    · intro i hi
      have hiw : i = winner := hpassed i (by rw [hi]; rfl)
      rw [hiw, hw] at hi
      have hrem : remaining = [] := by
        injection hi
      rw [hrem, List.append_nil] at hsteps
      exact hsteps

theorem cleanup_guard_first_caller_wins_witness :
    ([1, 0, 1, 2, 0, 1] : List Nat) ≠ []
    ∧ (∃ winner,
        ((concurrentCleanup desktopBuild { hasWindow := true } [1, 0, 1, 2, 0, 1]).callers
          winner).passed = true)
    ∧ ((concurrentCleanup desktopBuild { hasWindow := true } [1, 0, 1, 2, 0, 1]).callers
        1).passed = true
    ∧ (concurrentCleanup desktopBuild { hasWindow := true } [1, 0, 1, 2, 0, 1]).callers 0
        = CallerState.skipped
    ∧ (concurrentCleanup desktopBuild { hasWindow := true } [1, 0, 1, 2, 0, 1]).callers 2
        = CallerState.skipped
    ∧ (concurrentCleanup desktopBuild { hasWindow := true } [1, 0, 1, 2, 0, 1]).trace
        = [(1, CleanupStep.hideWindow), (1, CleanupStep.windowCleanup)] :=
  ⟨by decide,
    (cleanup_guard_first_caller_wins desktopBuild { hasWindow := true }
      [1, 0, 1, 2, 0, 1]).2.1 (by decide),
    by decide, by decide, by decide, by decide⟩

/-! ## The scan loop stays inside the string -/

theorem replace_length (program after : QString) (i : Nat) (h : i + 2 ≤ program.length) :
    (replace program i 2 after).length + 2 = program.length + after.length := by
  unfold replace
  simp only [List.length_append, List.length_take, List.length_drop]
  omega

theorem iteration_in_bounds (text : Char → Option QString) (program : QString) (i : Nat)
    (h : i + 2 ≤ program.length) :
    ∃ program1 found, iteration text program i = some (program1, found)
      ∧ program.length ≤ program1.length + 2
      ∧ (found = false → program1 = program) := by
  have h0 : i < program.length := by omega
  have h1 : i + 1 < program.length := by omega
  unfold iteration
  rw [List.getElem?_eq_getElem h0, List.getElem?_eq_getElem h1]
  by_cases hc : program[i] = '%'
  · cases ht : text program[i + 1] with
    | none =>
      exact ⟨program, true, by simp [hc, ht], by omega, fun _ => rfl⟩
    | some after =>
      refine ⟨replace program i 2 after, true, by simp [hc, ht], ?_, fun hf => ?_⟩
      · have := replace_length program after i h
        omega
      · exact absurd hf (by decide)
  · exact ⟨program, false, by simp [hc], by omega, fun _ => rfl⟩

theorem scanAccesses_in_bounds (text : Char → Option QString) :
    ∀ (m : Nat) (program : QString), (m = 0 ∨ m + 1 ≤ program.length) →
      ∃ log, scanAccesses text program m = some log
        ∧ log.length ≤ m
        ∧ (∀ p ∈ log, p.1 + 2 ≤ p.2 ∧ p.1 < m) := by
  intro m
  induction m using Nat.strong_induction_on with
  | _ m ih =>
    intro program hm
    match m, ih, hm with
    | 0, _, _ => exact ⟨[], rfl, by simp, by simp⟩
    | 1, _, hm =>
      have hlen : 0 + 2 ≤ program.length := by omega
      obtain ⟨program1, found, hit, _, _⟩ := iteration_in_bounds text program 0 hlen
      refine ⟨[(0, program.length)], by simp [scanAccesses, hit], by simp, ?_⟩
      intro p hp
      simp only [List.mem_singleton] at hp
      subst hp
      exact ⟨hlen, by omega⟩
    | n + 2, ih, hm =>
      have hlen : (n + 1) + 2 ≤ program.length := by omega
      obtain ⟨program1, found, hit, hlen1, hsame⟩ :=
        iteration_in_bounds text program (n + 1) hlen
      cases found with
      | true =>
        obtain ⟨log, hlog, hcount, hall⟩ := ih n (by omega) program1 (by omega)
        refine ⟨(n + 1, program.length) :: log, by simp [scanAccesses, hit, hlog],
          by simp; omega, ?_⟩
        intro p hp
        rcases List.mem_cons.mp hp with hp | hp
        · subst hp
          exact ⟨hlen, by omega⟩
        · exact ⟨(hall p hp).1, by have := (hall p hp).2; omega⟩
      | false =>
        have hp1 : program1 = program := hsame rfl
        subst hp1
        obtain ⟨log, hlog, hcount, hall⟩ := ih (n + 1) (by omega) program1 (by omega)
        refine ⟨(n + 1, program1.length) :: log, by simp [scanAccesses, hit, hlog],
          by simp; omega, ?_⟩
        intro p hp
        rcases List.mem_cons.mp hp with hp | hp
        · subst hp
          exact ⟨hlen, by omega⟩
        · exact ⟨(hall p hp).1, by have := (hall p hp).2; omega⟩

theorem scanAccesses_isSome (text : Char → Option QString) :
    ∀ (m : Nat) (program : QString),
      (scanAccesses text program m).isSome = (scanFrom text program m).isSome := by
  intro m
  induction m using Nat.strong_induction_on with
  | _ m ih =>
    intro program
    match m, ih with
    | 0, _ => rfl
    | 1, _ => simp [scanAccesses, scanFrom]
    | n + 2, ih =>
      cases hit : iteration text program (n + 1) with
      | none => simp [scanAccesses, scanFrom, hit]
      | some r =>
        obtain ⟨program1, found⟩ := r
        cases found with
        | true => simpa [scanAccesses, scanFrom, hit] using ih n (by omega) program1
        | false => simpa [scanAccesses, scanFrom, hit] using ih (n + 1) (by omega) program1

theorem trimmed_length_le (s : QString) : (trimmed s).length ≤ s.length := by
  unfold trimmed trimRight
  have h1 := (List.dropWhile_sublist isSpace (l := (s.dropWhile isSpace).reverse)).length_le
  have h2 := (List.dropWhile_sublist isSpace (l := s)).length_le
  simp only [List.length_reverse] at h1 ⊢
  omega

/-- C23: the scan of `runExternalProgram` is index-safe and ends.  For every
template, the empty one and those of one character included, and every
torrent, whatever the lengths of the attribute texts, the loop runs to its end
and renders a command; at every iteration `i + 2` is at most the length of
the string as it is then, so `program[i]`, `program[i + 1]` and
`replace(i, 2, ...)` stay inside it; and the number of iterations is at most
the length of the trimmed template minus one, none when that length is 0 or
1. -/
theorem scan_is_index_safe (host : Host) (torrent : Torrent) (autoRunProgram : QString) :
    ∃ log program,
      renderAccesses host torrent autoRunProgram = some log
      ∧ renderProgram host torrent autoRunProgram = some program
      ∧ (renderAccesses host torrent autoRunProgram).isSome
          = (renderProgram host torrent autoRunProgram).isSome
      ∧ (∀ p ∈ log, p.1 + 2 ≤ p.2)
      ∧ log.length ≤ (trimmed autoRunProgram).length - 1
      ∧ log.length ≤ autoRunProgram.length - 1
      ∧ ((trimmed autoRunProgram).length ≤ 1 → log = []) := by
  have hm : (trimmed autoRunProgram).length - 1 = 0
      ∨ (trimmed autoRunProgram).length - 1 + 1 ≤ (trimmed autoRunProgram).length := by
    omega
  obtain ⟨log, hlog, hcount, hall⟩ :=
    scanAccesses_in_bounds (specifierText host torrent) _ (trimmed autoRunProgram) hm
  have hle := trimmed_length_le autoRunProgram
  refine ⟨log, _, hlog, renderProgram_eq host torrent autoRunProgram,
    scanAccesses_isSome (specifierText host torrent) _ _, fun p hp => (hall p hp).1,
    hcount, by omega, ?_⟩
  intro h1
  have h0 : log.length = 0 := by omega
  exact List.length_eq_zero.mp h0

theorem scan_is_index_safe_witness :
    ∃ log program,
      renderAccesses plainHost { name := "".toList } "%N%".toList = some log
      ∧ renderProgram plainHost { name := "".toList } "%N%".toList = some program
      ∧ (renderAccesses plainHost { name := "".toList } "%N%".toList).isSome
          = (renderProgram plainHost { name := "".toList } "%N%".toList).isSome
      ∧ (∀ p ∈ log, p.1 + 2 ≤ p.2)
      ∧ log.length ≤ (trimmed "%N%".toList).length - 1
      ∧ log.length ≤ "%N%".toList.length - 1
      ∧ ((trimmed "%N%".toList).length ≤ 1 → log = []) :=
  scan_is_index_safe plainHost { name := "".toList } "%N%".toList

/-! ## Properties of the wire format, of the peer relevance and of the log size -/

/-- C24: the wire round trip, exactly.  For every list of entries none of
which contains `|`, splitting the message that `sendParams` builds the way
`processMessage` splits it gives the non-empty entries in their order.  So
the round trip gives back the batch if and only if no entry is empty, and
the empty batch and a batch of empty entries both come back as the empty
list. -/
theorem wire_roundtrip_characterisation (batch : QStringList)
    (hsep : ∀ e ∈ batch, PARAMS_SEPARATOR ∉ e) :
    split (sendParams batch) PARAMS_SEPARATOR = batch.filter (fun e => !e.isEmpty)
    ∧ (split (sendParams batch) PARAMS_SEPARATOR = batch ↔ ∀ e ∈ batch, e ≠ [])
    ∧ split (sendParams []) PARAMS_SEPARATOR = []
    ∧ ((∀ e ∈ batch, e = []) → split (sendParams batch) PARAMS_SEPARATOR = []) := by
  have hmain : split (sendParams batch) PARAMS_SEPARATOR
      = batch.filter (fun e => !e.isEmpty) := split_join batch PARAMS_SEPARATOR hsep
  refine ⟨hmain, ?_, ?_, ?_⟩
  · rw [hmain, List.filter_eq_self]
    constructor
    · intro h e he hnil
      have := h e he
      rw [hnil] at this
      exact absurd this (by decide)
    · intro h e he
      cases e with
      | nil => exact absurd rfl (h [] he)
      | cons c cs => rfl
  · exact split_join [] PARAMS_SEPARATOR (by simp)
  · intro hall
    rw [hmain, List.filter_eq_nil_iff]
    intro e he
    rw [hall e he]
    decide

theorem wire_roundtrip_characterisation_witness :
    (∀ e ∈ ["a".toList, [], "b".toList], PARAMS_SEPARATOR ∉ e)
    ∧ split (sendParams ["a".toList, [], "b".toList]) PARAMS_SEPARATOR
        = ["a".toList, [], "b".toList].filter (fun e => !e.isEmpty)
    ∧ (∀ e ∈ ([[], []] : QStringList), e = [])
    ∧ split (sendParams [[], []]) PARAMS_SEPARATOR = [] :=
  ⟨by decide,
    (wire_roundtrip_characterisation ["a".toList, [], "b".toList] (by decide)).1,
    by decide,
    (wire_roundtrip_characterisation [[], []] (by decide)).2.2.2 (by decide)⟩

theorem bitCount_bitAnd_nil_right (a : QBitArray) : bitCount (bitAnd a []) true = 0 := by
  induction a with
  | nil => rfl
  | cons x a ih =>
    simp only [bitAnd, bitCount] at ih ⊢
    simp [ih]

theorem bitCount_bitAnd_nil_left (b : QBitArray) : bitCount (bitAnd [] b) true = 0 := by
  simp [bitAnd, bitCount, List.count_eq_zero]

theorem remoteHaves_eq (allPieces peerPieces : QBitArray) :
    remoteHaves allPieces peerPieces = peerHasTorrentLacks allPieces peerPieces := by
  unfold remoteHaves peerHasTorrentLacks
  induction peerPieces generalizing allPieces with
  | nil =>
    rw [bitCount_bitAnd_nil_left]
    rfl
  | cons x peerPieces ih =>
    cases allPieces with
    | nil =>
      have := bitCount_bitAnd_nil_right (x :: peerPieces)
      simpa [bitNot] using this
    | cons y allPieces =>
      have h := ih allPieces
      simp only [bitNot, bitCount] at h
      cases x <;> cases y <;> simp [bitAnd, bitNot, bitCount, h]

theorem peerHasTorrentLacks_le (allPieces peerPieces : QBitArray) :
    peerHasTorrentLacks allPieces peerPieces ≤ bitCount allPieces false := by
  unfold peerHasTorrentLacks bitCount
  induction peerPieces generalizing allPieces with
  | nil => simp
  | cons x peerPieces ih =>
    cases allPieces with
    | nil => simp
    | cons y allPieces =>
      have h := ih allPieces
      cases x <;> cases y <;> simp [List.count_cons] <;> omega

/-- C25: `calcRelevance` never divides by zero and is a fraction between 0 and
1.  For every pair of bit arrays, of equal lengths or not: when the torrent
lacks no piece the result is the literal 0 and no division is made; otherwise
the result is the division of `remoteHaves` by `localMissing`, where
`localMissing`, the number of pieces the torrent lacks, is positive and
`remoteHaves` is the number of pieces that the peer has and the torrent
lacks, which is at most `localMissing`.  So the result is never a division by
zero, the number it stands for lies between 0 and 1, and so does that number
rounded by any monotone rounding that keeps 0 and 1. -/
theorem calcRelevance_is_a_fraction (allPieces peerPieces : QBitArray) :
    (bitCount allPieces false = 0 →
      calcRelevance allPieces peerPieces = Relevance.zero)
    ∧ (0 < bitCount allPieces false →
        calcRelevance allPieces peerPieces
          = Relevance.quotient (remoteHaves allPieces peerPieces)
              (bitCount allPieces false))
    ∧ (∀ numerator denominator,
        calcRelevance allPieces peerPieces = Relevance.quotient numerator denominator →
          0 < denominator ∧ numerator ≤ denominator
          ∧ numerator = peerHasTorrentLacks allPieces peerPieces
          ∧ denominator = bitCount allPieces false)
    ∧ (calcRelevance allPieces peerPieces).dividesByZero = false
    ∧ remoteHaves allPieces peerPieces = peerHasTorrentLacks allPieces peerPieces
    ∧ remoteHaves allPieces peerPieces ≤ bitCount allPieces false
    ∧ (∃ q, (calcRelevance allPieces peerPieces).exact = some q
        ∧ 0 ≤ q ∧ q ≤ 1
        ∧ (∀ rounding : ℚ → ℚ, Monotone rounding → rounding 0 = 0 → rounding 1 = 1 →
            0 ≤ rounding q ∧ rounding q ≤ 1)) := by
  have hle : remoteHaves allPieces peerPieces ≤ bitCount allPieces false := by
    rw [remoteHaves_eq]
    exact peerHasTorrentLacks_le allPieces peerPieces
  have hrounded : ∀ q : ℚ, 0 ≤ q → q ≤ 1 →
      ∀ rounding : ℚ → ℚ, Monotone rounding → rounding 0 = 0 → rounding 1 = 1 →
        0 ≤ rounding q ∧ rounding q ≤ 1 := by
    intro q h0 h1 rounding hmono hr0 hr1
    exact ⟨hr0 ▸ hmono h0, hr1 ▸ hmono h1⟩
  by_cases h : bitCount allPieces false = 0
  · have hz : calcRelevance allPieces peerPieces = Relevance.zero := by
      simp [calcRelevance, h]
    refine ⟨fun _ => hz, fun hpos => absurd h (by omega), ?_, ?_,
      remoteHaves_eq allPieces peerPieces, hle, ?_⟩
    · intro numerator denominator hq
      rw [hz] at hq
      exact absurd hq (by simp)
    · rw [hz]
      rfl
    · rw [hz]
      exact ⟨0, rfl, le_refl 0, by norm_num, hrounded 0 (le_refl 0) (by norm_num)⟩
  · have hpos : 0 < bitCount allPieces false := by omega
    have hne : ¬ bitCount allPieces false ≤ 0 := by omega
    have hq : calcRelevance allPieces peerPieces
        = Relevance.quotient (remoteHaves allPieces peerPieces)
            (bitCount allPieces false) := by
      simp [calcRelevance, hne]
    have hposq : (0 : ℚ) < (bitCount allPieces false : ℚ) := by exact_mod_cast hpos
    have hleq : (remoteHaves allPieces peerPieces : ℚ) ≤ (bitCount allPieces false : ℚ) := by
      exact_mod_cast hle
    have h0 : (0 : ℚ) ≤ (remoteHaves allPieces peerPieces : ℚ)
        / (bitCount allPieces false : ℚ) := by positivity
    have h1 : (remoteHaves allPieces peerPieces : ℚ) / (bitCount allPieces false : ℚ) ≤ 1 := by
      rw [div_le_one hposq]
      exact hleq
    refine ⟨fun h0 => absurd h0 h, fun _ => hq, ?_, ?_,
      remoteHaves_eq allPieces peerPieces, hle, ?_⟩
    · intro numerator denominator hnd
      rw [hq] at hnd
      injection hnd with hn hd
      subst hn
      subst hd
      exact ⟨hpos, hle, remoteHaves_eq allPieces peerPieces, rfl⟩
    · rw [hq]
      simp [Relevance.dividesByZero, h]
    · rw [hq]
      exact ⟨_, by simp [Relevance.exact, h], h0, h1, hrounded _ h0 h1⟩

theorem calcRelevance_is_a_fraction_witness :
    0 < bitCount [true, false, false, true] false
    ∧ calcRelevance [true, false, false, true] [true, true, false, false, true]
        = Relevance.quotient
            (remoteHaves [true, false, false, true] [true, true, false, false, true])
            (bitCount [true, false, false, true] false)
    ∧ calcRelevance [true, false, false, true] [true, true, false, false, true]
        = Relevance.quotient 1 2
    ∧ (0 < 2 ∧ 1 ≤ 2
        ∧ 1 = peerHasTorrentLacks [true, false, false, true]
            [true, true, false, false, true]
        ∧ 2 = bitCount [true, false, false, true] false)
    ∧ bitCount [true, true] false = 0
    ∧ calcRelevance [true, true] [true, false, true] = Relevance.zero :=
  ⟨by decide,
    (calcRelevance_is_a_fraction [true, false, false, true]
      [true, true, false, false, true]).2.1 (by decide),
    by decide,
    (calcRelevance_is_a_fraction [true, false, false, true]
      [true, true, false, false, true]).2.2.1 1 2 (by decide),
    by decide,
    (calcRelevance_is_a_fraction [true, true] [true, false, true]).1 (by decide)⟩

/-- C26: the size setting of the file logger is always clamped.  Whatever is
stored under `MaxSizeBytes`, `fileLoggerMaxSize` returns a value between 1024
and 1000 * 1024 * 1024, and the stored value itself when that lies in the
range.  For every integer `bytes`, after `setFileLoggerMaxSize(bytes)` the
stored value and the value that `fileLoggerMaxSize` returns are both
`min(max(bytes, 1024), 1000 * 1024 * 1024)`; so setting the value just read
changes nothing after a set, and never changes the value read. -/
theorem fileLoggerMaxSize_is_clamped (s : FileLoggerSettings) (bytes : Int) :
    (1024 ≤ fileLoggerMaxSize s ∧ fileLoggerMaxSize s ≤ 1000 * 1024 * 1024)
    ∧ (∀ v, s.m_storeFileLoggerMaxSize = some v → 1024 ≤ v → v ≤ 1000 * 1024 * 1024 →
        fileLoggerMaxSize s = v)
    ∧ (setFileLoggerMaxSize s bytes).m_storeFileLoggerMaxSize
        = some (min (max bytes 1024) (1000 * 1024 * 1024))
    ∧ fileLoggerMaxSize (setFileLoggerMaxSize s bytes)
        = min (max bytes 1024) (1000 * 1024 * 1024)
    ∧ setFileLoggerMaxSize (setFileLoggerMaxSize s bytes)
          (fileLoggerMaxSize (setFileLoggerMaxSize s bytes))
        = setFileLoggerMaxSize s bytes
    ∧ fileLoggerMaxSize (setFileLoggerMaxSize s (fileLoggerMaxSize s))
        = fileLoggerMaxSize s := by
  have hclamp : ∀ v : Int, 1024 ≤ min (max v 1024) (1000 * 1024 * 1024)
      ∧ min (max v 1024) (1000 * 1024 * 1024) ≤ 1000 * 1024 * 1024 := by
    intro v
    omega
  have hfix : ∀ v : Int, 1024 ≤ v → v ≤ 1000 * 1024 * 1024 →
      min (max v 1024) (1000 * 1024 * 1024) = v := by
    intro v h1 h2
    omega
  have hidem : ∀ v : Int,
      min (max (min (max v 1024) (1000 * 1024 * 1024)) 1024) (1000 * 1024 * 1024)
        = min (max v 1024) (1000 * 1024 * 1024) :=
    fun v => hfix _ (hclamp v).1 (hclamp v).2
  refine ⟨hclamp _, ?_, rfl, ?_, ?_, ?_⟩
  · intro v hv h1 h2
    simp only [fileLoggerMaxSize, hv, Option.getD_some, MIN_FILELOG_SIZE, MAX_FILELOG_SIZE]
    exact hfix v h1 h2
  · simp only [fileLoggerMaxSize, setFileLoggerMaxSize, Option.getD_some, MIN_FILELOG_SIZE,
      MAX_FILELOG_SIZE]
    exact hidem bytes
  · simp only [fileLoggerMaxSize, setFileLoggerMaxSize, Option.getD_some, MIN_FILELOG_SIZE,
      MAX_FILELOG_SIZE, hidem, Option.map_map]
    rfl
  · simp only [fileLoggerMaxSize, setFileLoggerMaxSize, Option.getD_some, MIN_FILELOG_SIZE,
      MAX_FILELOG_SIZE]
    rw [hidem, hidem]

theorem fileLoggerMaxSize_is_clamped_witness :
    ({ m_storeFileLoggerMaxSize := some 4096 } : FileLoggerSettings).m_storeFileLoggerMaxSize
        = some 4096
    ∧ (1024 : Int) ≤ 4096
    ∧ (4096 : Int) ≤ 1000 * 1024 * 1024
    ∧ fileLoggerMaxSize { m_storeFileLoggerMaxSize := some 4096 } = 4096 :=
  ⟨rfl, by decide, by decide,
    (fileLoggerMaxSize_is_clamped { m_storeFileLoggerMaxSize := some 4096 } 0).2.1 4096 rfl
      (by decide) (by decide)⟩

end QBt
